import Mathlib

/-!
Verification of the price-series normalization and alignment engine of the
icarus-ticker-tracker repository.

The engine lives in `src/components/MultiTickerChart.tsx` (the `getStartDate`
helper, the `chartData` builder and the `performances` summary) and in
`src/components/PriceChart.tsx` (single-ticker chart and alpha).  Prices are
modelled as rationals; ISO dates as strings compared lexicographically —
exactly how the TypeScript code compares them (`p.date >= startDate` compares
strings).  JavaScript `Map`s are modelled as association lists with
`Map.set` replace-in-place semantics, plain objects as append-only cell
lists where the last assignment wins, and JavaScript truthiness tests on
numbers (`if (price && baseline)`) as explicit `≠ 0` checks on optional
values.
-/

namespace Icarus

/-! ## String comparison

JavaScript compares strings by code units, lexicographically.  ISO dates are
ASCII, so this coincides with comparing the character lists. -/

/-- Lexicographic `≤` on character lists (JavaScript `<=` on strings). -/
def lexLe : List Char → List Char → Bool
  | [], _ => true
  | _ :: _, [] => false
  | a :: as, b :: bs => if a < b then true else if b < a then false else lexLe as bs

/-- JavaScript `a <= b` on strings. -/
def strLe (a b : String) : Bool := lexLe a.data b.data

/-- JavaScript `a < b` on strings. -/
def strLt (a b : String) : Bool := !(strLe b a)

/-- `strLe` as a relation (for sortedness statements). -/
def SLe (a b : String) : Prop := strLe a b = true

/-- `strLt` as a relation (for strict sortedness statements). -/
def SLt (a b : String) : Prop := strLt a b = true

instance (a b : String) : Decidable (SLe a b) :=
  inferInstanceAs (Decidable (strLe a b = true))

instance (a b : String) : Decidable (SLt a b) :=
  inferInstanceAs (Decidable (strLt a b = true))

/-- `Number(x.toFixed(2))`: round to two decimal places.  On the rational
model ties round half-up; all prices in scope are positive so this agrees
with JavaScript's rounding on exact values. -/
def round2 (x : ℚ) : ℚ := ((round (x * 100) : ℤ) : ℚ) / 100

/-! ## JavaScript containers -/

/-- `Map.get(k)`: the entry with the key (association lists built by
`jsMapSet` keep at most one entry per key). -/
def jsMapGet {β : Type} (m : List (String × β)) (k : String) : Option β :=
  (m.find? fun p => decide (p.1 = k)).map (fun p => p.2)

/-- `Map.set(k, v)`: replace in place when the key is present (a JavaScript
`Map` keeps the original insertion position), else append. -/
def jsMapSet {β : Type} (m : List (String × β)) (k : String) (v : β) :
    List (String × β) :=
  if (m.find? fun p => decide (p.1 = k)).isSome then
    m.map fun p => if p.1 = k then (k, v) else p
  else
    m ++ [(k, v)]

/-- `new Map(pairs)`: insert the pairs in order; a later pair with the same
key overwrites the earlier value. -/
def jsMapOfList {β : Type} (l : List (String × β)) : List (String × β) :=
  l.foldl (fun m p => jsMapSet m p.1 p.2) []

/-- Reading a property of a plain JavaScript object whose assignments were
recorded in order: the last assignment to the key wins; `none` when the key
was never assigned. -/
def jsObjGet (cells : List (String × ℚ)) (k : String) : Option ℚ :=
  (cells.reverse.find? fun p => decide (p.1 = k)).map (fun p => p.2)

/-! ## Calendar dates

`getStartDate` reads the wall clock (`new Date()`) and does calendar
arithmetic via `setMonth` / `setFullYear` before formatting with
`toISOString().split('T')[0]`.  We model the clock reading as an explicit
`JDate` argument and reproduce the JavaScript overflow behaviour (setting a
month in which the day does not exist rolls over into the following
month). -/

structure JDate where
  year : Nat
  month : Nat
  day : Nat
deriving DecidableEq, Repr

/-- The decimal digit character for `n % 10`. -/
def digitChar (n : Nat) : Char := Char.ofNat (48 + n % 10)

/-- A two-digit field of `toISOString` (month, day: always below 100). -/
def pad2 (n : Nat) : String := String.mk [digitChar (n / 10), digitChar n]

/-- The four-digit year field of `toISOString`. -/
def pad4 (n : Nat) : String :=
  String.mk [digitChar (n / 1000), digitChar (n / 100), digitChar (n / 10),
    digitChar n]

def isLeapYear (y : Nat) : Bool :=
  y % 4 = 0 && (y % 100 ≠ 0 || y % 400 = 0)

def daysInMonth (y m : Nat) : Nat :=
  if m = 2 then (if isLeapYear y then 29 else 28)
  else if m = 4 ∨ m = 6 ∨ m = 9 ∨ m = 11 then 30
  else 31

/-- `now.toISOString().split('T')[0]`. -/
def toIso (d : JDate) : String :=
  pad4 d.year ++ "-" ++ pad2 d.month ++ "-" ++ pad2 d.day

/-- `now.setMonth(now.getMonth() - k)`: month arithmetic with year borrow;
a day past the end of the target month overflows into the following
month. -/
def subMonths (d : JDate) (k : Nat) : JDate :=
  let total := d.year * 12 + (d.month - 1) - k
  let y := total / 12
  let m := total % 12 + 1
  if d.day ≤ daysInMonth y m then ⟨y, m, d.day⟩
  else if m = 12 then ⟨y + 1, 1, d.day - daysInMonth y m⟩
  else ⟨y, m + 1, d.day - daysInMonth y m⟩

/-- `now.setFullYear(now.getFullYear() - k)`: only Feb 29 can overflow. -/
def subYears (d : JDate) (k : Nat) : JDate :=
  let y := d.year - k
  if d.day ≤ daysInMonth y d.month then ⟨y, d.month, d.day⟩
  else ⟨y, d.month + 1, d.day - daysInMonth y d.month⟩

/-! ## Data model (`PricePoint`, `TickerData`, `TimeRange`) -/

structure PricePoint where
  date : String
  close : ℚ
deriving DecidableEq, Repr

structure TickerData where
  symbol : String
  mentionDate : String
  priceHistory : List PricePoint
deriving DecidableEq, Repr

inductive TimeRange where
  | oneMonth | threeMonths | sixMonths | oneYear | ytd | all | sinceMention
deriving DecidableEq, Repr

/-- One step of the `reduce` on line 60: keep the smaller mention date. -/
def mentionMinStep (best : String) (u : TickerData) : String :=
  if strLt u.mentionDate best then u.mentionDate else best

/-- `getStartDate(timeRange, tickers)` from `MultiTickerChart.tsx`.  The
`now` argument models the internal `new Date()` wall-clock read.  The
`ALL` / `SINCE_MENTION` branch filters with `t => true` (all tickers, not
only the visible ones) and reduces to the minimum mention date, falling
back to `now` when the ticker list is empty. -/
def getStartDate (timeRange : TimeRange) (tickers : List TickerData)
    (now : JDate) : String :=
  match timeRange with
  | .oneMonth => toIso (subMonths now 1)
  | .threeMonths => toIso (subMonths now 3)
  | .sixMonths => toIso (subMonths now 6)
  | .oneYear => toIso (subYears now 1)
  | .ytd => pad4 now.year ++ "-01-01"
  | .all | .sinceMention =>
    match tickers with
    | [] => toIso now
    | t :: ts => (t :: ts).foldl mentionMinStep t.mentionDate

/-! ## The aligned chart table (`chartData` in `MultiTickerChart.tsx`) -/

/-- One output row: the `date` field plus the sparse per-series cells, in
assignment order (visible tickers in ticker order, then `'SPY'`). -/
structure ChartPoint where
  date : String
  cells : List (String × ℚ)
deriving DecidableEq, Repr

/-- `new Map(t.priceHistory.map(p => [p.date, p.close]))`. -/
def priceMapOf (t : TickerData) : List (String × ℚ) :=
  jsMapOfList (t.priceHistory.map fun p => (p.date, p.close))

/-- Lines 114–116: the baseline close — first price point whose date is on
or after the baseline date (mention date when `SINCE_MENTION`, else the
start date). -/
def baselineOf (isSinceMention : Bool) (startDate : String) (t : TickerData) :
    Option ℚ :=
  let baselineDate := if isSinceMention then t.mentionDate else startDate
  (t.priceHistory.find? fun p => strLe baselineDate p.date).map (fun p => p.close)

/-- The body of the `tickers.forEach` on lines 109–129: a visible ticker
stores its price map and, when truthy (`if (baseline)`), its baseline. -/
def buildMapsStep (visible : List String) (isSinceMention : Bool)
    (startDate : String)
    (acc : List (String × List (String × ℚ)) × List (String × ℚ))
    (t : TickerData) :
    List (String × List (String × ℚ)) × List (String × ℚ) :=
  if visible.contains t.symbol then
    let tm := jsMapSet acc.1 t.symbol (priceMapOf t)
    let bp :=
      match baselineOf isSinceMention startDate t with
      | some b => if b ≠ 0 then jsMapSet acc.2 t.symbol b else acc.2
      | none => acc.2
    (tm, bp)
  else acc

/-- Lines 105–129: one pass over `tickers`, building `tickerMaps` and
`baselinePrices` for the visible ones. -/
def buildMaps (tickers : List TickerData) (visible : List String)
    (isSinceMention : Bool) (startDate : String) :
    List (String × List (String × ℚ)) × List (String × ℚ) :=
  tickers.foldl (buildMapsStep visible isSinceMention startDate) ([], [])

/-- Line 133: `benchmark.find(p => p.date >= startDate)?.close`. -/
def benchmarkBaselineOf (benchmark : List PricePoint) (startDate : String) :
    Option ℚ :=
  (benchmark.find? fun p => strLe startDate p.date).map (fun p => p.close)

/-- Lines 136–155: build one row.  A ticker cell is emitted only when both
the close for the date and the stored baseline are truthy; same for the
`'SPY'` benchmark cell. -/
def buildRow (tickerMaps : List (String × List (String × ℚ)))
    (baselinePrices : List (String × ℚ)) (benchmarkMap : List (String × ℚ))
    (benchmarkBaseline : Option ℚ) (date : String) : ChartPoint :=
  let cells :=
    tickerMaps.foldl
      (fun cs entry =>
        match jsMapGet entry.2 date, jsMapGet baselinePrices entry.1 with
        | some price, some baseline =>
          if price ≠ 0 ∧ baseline ≠ 0 then
            cs ++ [(entry.1, round2 (price / baseline * 100))]
          else cs
        | _, _ => cs)
      []
  let cells :=
    match jsMapGet benchmarkMap date, benchmarkBaseline with
    | some benchPrice, some bb =>
      if benchPrice ≠ 0 ∧ bb ≠ 0 then
        cells ++ [("SPY", round2 (benchPrice / bb * 100))]
      else cells
    | _, _ => cells
  ⟨date, cells⟩

/-- Lines 88–94: dates contributed by the visible tickers, filtered to the
window. -/
def tickerDatesOf (tickers : List TickerData) (visible : List String)
    (startDate : String) : List String :=
  tickers.foldl
    (fun ds t =>
      if visible.contains t.symbol then
        ds ++ (t.priceHistory.filter fun p => strLe startDate p.date).map
          (fun p => p.date)
      else ds)
    []

/-- Lines 85–98: the date `Set` contents — visible-ticker dates then
benchmark dates, window-filtered. -/
def allDatesOf (tickers : List TickerData) (benchmark : List PricePoint)
    (visible : List String) (startDate : String) : List String :=
  tickerDatesOf tickers visible startDate ++
    (benchmark.filter fun p => strLe startDate p.date).map (fun p => p.date)

/-- Insert a date into a sorted list (ascending, JavaScript string order). -/
def insertDate (d : String) : List String → List String
  | [] => [d]
  | e :: es => if strLe d e then d :: e :: es else e :: insertDate d es

/-- `Array.from(allDates).sort()`: ascending lexicographic sort. -/
def sortDates (l : List String) : List String := l.foldr insertDate []

/-- Line 100: `sortedDates` — deduplicated (the `Set`) and sorted. -/
def sortedDatesOf (tickers : List TickerData) (benchmark : List PricePoint)
    (visible : List String) (startDate : String) : List String :=
  sortDates (allDatesOf tickers benchmark visible startDate).dedup

/-- Lines 79–157: the full `chartData` table.  Returns `[]` when the ticker
list is empty (line 80) or the date union is empty (line 101). -/
def chartData (tickers : List TickerData) (benchmark : List PricePoint)
    (visible : List String) (timeRange : TimeRange) (now : JDate) :
    List ChartPoint :=
  if tickers.isEmpty then []
  else
    let startDate := getStartDate timeRange tickers now
    let isSinceMention := decide (timeRange = TimeRange.sinceMention)
    let sortedDates := sortedDatesOf tickers benchmark visible startDate
    if sortedDates.isEmpty then []
    else
      let maps := buildMaps tickers visible isSinceMention startDate
      let benchmarkMap := jsMapOfList (benchmark.map fun p => (p.date, p.close))
      let benchmarkBaseline := benchmarkBaselineOf benchmark startDate
      sortedDates.map (buildRow maps.1 maps.2 benchmarkMap benchmarkBaseline)

/-! ## The performance summary (`performances` in `MultiTickerChart.tsx`) -/

structure PerfEntry where
  symbol : String
  perf : ℚ
deriving DecidableEq, Repr

/-- Insert into a list sorted descending by `perf`; ties keep the inserted
element first, matching the stable JavaScript sort with comparator
`(a, b) => b.perf - a.perf`. -/
def insertPerf (p : PerfEntry) : List PerfEntry → List PerfEntry
  | [] => [p]
  | q :: qs => if q.perf ≤ p.perf then p :: q :: qs else q :: insertPerf p qs

/-- `perfs.sort((a, b) => b.perf - a.perf)`. -/
def sortPerfs (l : List PerfEntry) : List PerfEntry := l.foldr insertPerf []

/-- Lines 169–201: per-series performance, read off the first and last row
of the table; only series truthy in both rows get an entry; the `'SPY'`
benchmark entry is appended before sorting. -/
def performances (cd : List ChartPoint) (visible : List String) :
    List PerfEntry :=
  if cd.length < 2 then []
  else
    let firstPoint := cd.head?.getD ⟨"", []⟩
    let lastPoint := cd.getLast?.getD ⟨"", []⟩
    let perfs :=
      visible.foldl
        (fun ps sym =>
          match jsObjGet firstPoint.cells sym, jsObjGet lastPoint.cells sym with
          | some s, some e =>
            if s ≠ 0 ∧ e ≠ 0 then ps ++ [⟨sym, e - s⟩] else ps
          | _, _ => ps)
        []
    let perfs :=
      match jsObjGet firstPoint.cells "SPY", jsObjGet lastPoint.cells "SPY" with
      | some s, some e =>
        if s ≠ 0 ∧ e ≠ 0 then perfs ++ [⟨"SPY", e - s⟩] else perfs
      | _, _ => perfs
    sortPerfs perfs

/-! ## The single-ticker chart (`PriceChart.tsx`) -/

/-- One row of the single-ticker chart: the symbol's indexed value, the
nullable indexed benchmark, and the raw close. -/
structure PCPoint where
  date : String
  symVal : ℚ
  spy : Option ℚ
  rawPrice : ℚ
deriving DecidableEq, Repr

/-- Lines 33–64 of `PriceChart.tsx`: the indexed single-ticker table. -/
def priceChartData (priceHistory benchmarkHistory : List PricePoint)
    (mentionDate : String) : List PCPoint :=
  if priceHistory.isEmpty then []
  else
    let mentionPrice :=
      (priceHistory.find? fun p => strLe mentionDate p.date).map (fun p => p.close)
    let mentionBenchmark :=
      (benchmarkHistory.find? fun p => strLe mentionDate p.date).map
        (fun p => p.close)
    match mentionPrice with
    | none => []
    | some mp =>
      if mp = 0 then []
      else
        let filteredPrices := priceHistory.filter fun p => strLe mentionDate p.date
        let filteredBenchmark :=
          benchmarkHistory.filter fun p => strLe mentionDate p.date
        let benchmarkMap :=
          jsMapOfList (filteredBenchmark.map fun p => (p.date, p.close))
        filteredPrices.map fun point =>
          let indexedPrice := point.close / mp * 100
          let indexedBenchmark : Option ℚ :=
            match jsMapGet benchmarkMap point.date, mentionBenchmark with
            | some bc, some mb =>
              if bc ≠ 0 ∧ mb ≠ 0 then some (bc / mb * 100) else none
            | _, _ => none
          ⟨point.date, round2 indexedPrice,
            match indexedBenchmark with
            | some ib => if ib ≠ 0 then some (round2 ib) else none
            | none => none,
            point.close⟩

/-- Line 75: `latestData?.[symbol] ? latestData[symbol] - 100 : 0`. -/
def tickerPerfOf (cd : List PCPoint) : ℚ :=
  match cd.getLast? with
  | some ld => if ld.symVal ≠ 0 then ld.symVal - 100 else 0
  | none => 0

/-- Line 76: `latestData?.SPY ? latestData.SPY - 100 : 0`. -/
def spyPerfOf (cd : List PCPoint) : ℚ :=
  match cd.getLast? with
  | some ld =>
    match ld.spy with
    | some v => if v ≠ 0 then v - 100 else 0
    | none => 0
  | none => 0

/-- Line 77: `alpha = tickerPerf - spyPerf` (no rounding applied). -/
def alphaOf (cd : List PCPoint) : ℚ := tickerPerfOf cd - spyPerfOf cd

/-! ## Spec-side definitions used to state the claims -/

/-- Membership in the spec's row-date union: a window-filtered date of some
visible entity, or of the benchmark. -/
def memUnionDate (tickers : List TickerData) (benchmark : List PricePoint)
    (visible : List String) (cutoff : String) (d : String) : Prop :=
  (∃ t ∈ tickers, visible.contains t.symbol = true ∧
    ∃ p ∈ t.priceHistory, p.date = d ∧ SLe cutoff d) ∨
  (∃ p ∈ benchmark, p.date = d ∧ SLe cutoff d)

/-- The value of the first row in which a series has a value. -/
def firstValuedCell (cd : List ChartPoint) (sym : String) : Option ℚ :=
  (cd.find? fun row => (jsObjGet row.cells sym).isSome).bind
    (fun row => jsObjGet row.cells sym)

/-- The visible tickers, in input order. -/
def visibleOf (tickers : List TickerData) (visible : List String) :
    List TickerData :=
  tickers.filter fun t => visible.contains t.symbol

/-- The `baselinePrices` entry a visible ticker contributes: its baseline,
kept only when truthy. -/
def baselineEntryOf (isSinceMention : Bool) (startDate : String)
    (t : TickerData) : Option (String × ℚ) :=
  match baselineOf isSinceMention startDate t with
  | some b => if b ≠ 0 then some (t.symbol, b) else none
  | none => none

/-- The cell a `tickerMaps` entry contributes to the row at `date`. -/
def cellOf (baselinePrices : List (String × ℚ)) (date : String)
    (entry : String × List (String × ℚ)) : Option (String × ℚ) :=
  match jsMapGet entry.2 date, jsMapGet baselinePrices entry.1 with
  | some price, some baseline =>
    if price ≠ 0 ∧ baseline ≠ 0 then
      some (entry.1, round2 (price / baseline * 100))
    else none
  | _, _ => none

/-- The `'SPY'` cell appended to a row (empty when no benchmark close or no
truthy benchmark baseline). -/
def spyCellOf (benchmarkMap : List (String × ℚ)) (benchmarkBaseline : Option ℚ)
    (date : String) : List (String × ℚ) :=
  match jsMapGet benchmarkMap date, benchmarkBaseline with
  | some benchPrice, some bb =>
    if benchPrice ≠ 0 ∧ bb ≠ 0 then [("SPY", round2 (benchPrice / bb * 100))]
    else []
  | _, _ => []

/-- The performance entry one visible symbol contributes: present exactly
when the symbol is truthy in both the first and the last row. -/
def perfEntryOf (firstPoint lastPoint : ChartPoint) (sym : String) :
    Option PerfEntry :=
  match jsObjGet firstPoint.cells sym, jsObjGet lastPoint.cells sym with
  | some s, some e => if s ≠ 0 ∧ e ≠ 0 then some ⟨sym, e - s⟩ else none
  | _, _ => none

/-- Dates of a price history are weakly ascending (data-model invariant). -/
def DatesSorted (l : List PricePoint) : Prop :=
  List.Pairwise (fun p q => SLe p.date q.date) l

/-- Dates of a price history are strictly ascending (ascending plus the
at-most-one-point-per-date invariant). -/
def DatesAsc (l : List PricePoint) : Prop :=
  List.Pairwise (fun p q => SLt p.date q.date) l

instance : DecidableRel fun (p q : PricePoint) => SLe p.date q.date :=
  fun p q => inferInstanceAs (Decidable (SLe p.date q.date))

instance : DecidableRel fun (p q : PricePoint) => SLt p.date q.date :=
  fun p q => inferInstanceAs (Decidable (SLt p.date q.date))

instance (l : List PricePoint) : Decidable (DatesSorted l) := by
  unfold DatesSorted
  infer_instance

instance (l : List PricePoint) : Decidable (DatesAsc l) := by
  unfold DatesAsc
  infer_instance

/-! # Lemmas -/

/-! ## The string order -/

theorem lexLe_refl (l : List Char) : lexLe l l = true := by
  induction l with
  | nil => rfl
  | cons a as ih => simp [lexLe, lt_irrefl, ih]

theorem lexLe_total (l₁ l₂ : List Char) : lexLe l₁ l₂ = true ∨ lexLe l₂ l₁ = true := by
  induction l₁ generalizing l₂ with
  | nil => left; rfl
  | cons a as ih =>
    cases l₂ with
    | nil => right; rfl
    | cons b bs =>
      rcases lt_trichotomy a b with h | h | h
      · left; simp [lexLe, h]
      · subst h
        rcases ih bs with h' | h'
        · left; simp [lexLe, lt_irrefl, h']
        · right; simp [lexLe, lt_irrefl, h']
      · right; simp [lexLe, h]

theorem lexLe_trans {l₁ l₂ l₃ : List Char} (h₁ : lexLe l₁ l₂ = true)
    (h₂ : lexLe l₂ l₃ = true) : lexLe l₁ l₃ = true := by
  induction l₁ generalizing l₂ l₃ with
  | nil => rfl
  | cons a as ih =>
    cases l₂ with
    | nil => simp [lexLe] at h₁
    | cons b bs =>
      cases l₃ with
      | nil => simp [lexLe] at h₂
      | cons c cs =>
        by_cases hab : a < b
        · have hac : a < c := by
            by_cases hbc : b < c
            · exact lt_trans hab hbc
            · by_cases hcb : c < b
              · simp [lexLe, hbc, hcb] at h₂
              · have : b = c := le_antisymm (le_of_not_lt hcb) (le_of_not_lt hbc)
                exact this ▸ hab
          simp [lexLe, hac]
        · by_cases hba : b < a
          · simp [lexLe, hab, hba] at h₁
          · have hab' : a = b := le_antisymm (le_of_not_lt hba) (le_of_not_lt hab)
            subst hab'
            simp only [lexLe, if_neg hab, if_neg hba] at h₁
            by_cases hbc : a < c
            · simp [lexLe, hbc]
            · by_cases hcb : c < a
              · simp [lexLe, hbc, hcb] at h₂
              · simp only [lexLe, if_neg hbc, if_neg hcb] at h₂ ⊢
                exact ih h₁ h₂

theorem lexLe_antisymm {l₁ l₂ : List Char} (h₁ : lexLe l₁ l₂ = true)
    (h₂ : lexLe l₂ l₁ = true) : l₁ = l₂ := by
  induction l₁ generalizing l₂ with
  | nil =>
    cases l₂ with
    | nil => rfl
    | cons b bs => simp [lexLe] at h₂
  | cons a as ih =>
    cases l₂ with
    | nil => simp [lexLe] at h₁
    | cons b bs =>
      by_cases hab : a < b
      · simp [lexLe, hab, asymm hab] at h₂
      · by_cases hba : b < a
        · simp [lexLe, hab, hba] at h₁
        · have : a = b := le_antisymm (le_of_not_lt hba) (le_of_not_lt hab)
          subst this
          simp only [lexLe, if_neg hab, if_neg hba] at h₁ h₂
          rw [ih h₁ h₂]

theorem SLe_refl (a : String) : SLe a a := lexLe_refl a.data

theorem SLe_trans {a b c : String} (h₁ : SLe a b) (h₂ : SLe b c) : SLe a c :=
  lexLe_trans h₁ h₂

theorem SLe_total (a b : String) : SLe a b ∨ SLe b a := lexLe_total a.data b.data

theorem SLe_antisymm {a b : String} (h₁ : SLe a b) (h₂ : SLe b a) : a = b := by
  cases a; cases b
  exact congrArg String.mk (lexLe_antisymm h₁ h₂)

theorem SLt_iff {a b : String} : SLt a b ↔ ¬ SLe b a := by
  simp [SLt, SLe, strLt]

theorem SLe_of_not_SLt {a b : String} (h : ¬ SLt a b) : SLe b a := by
  have := SLt_iff.not.mp h
  simpa [SLe] using this

theorem SLe_of_SLt {a b : String} (h : SLt a b) : SLe a b := by
  rcases SLe_total a b with h' | h'
  · exact h'
  · exact absurd h' (SLt_iff.mp h)

theorem SLt_of_SLe_of_ne {a b : String} (h : SLe a b) (hne : a ≠ b) : SLt a b := by
  rw [SLt_iff]
  intro h'
  exact hne (SLe_antisymm h h')

theorem SLt_irrefl (a : String) : ¬ SLt a a := by
  rw [SLt_iff]
  exact fun h => h (SLe_refl a)

theorem SLe_of_not_le {a b : String} (h : ¬ strLe a b = true) : SLe b a :=
  (SLe_total a b).resolve_left h

/-! ## Sorting dates -/

theorem insertDate_perm (d : String) (l : List String) :
    List.Perm (insertDate d l) (d :: l) := by
  induction l with
  | nil => rfl
  | cons e es ih =>
    by_cases h : strLe d e
    · simp [insertDate, h]
    · simp only [insertDate, if_neg h]
      exact (ih.cons e).trans (List.Perm.swap d e es)

theorem sortDates_perm (l : List String) : List.Perm (sortDates l) l := by
  induction l with
  | nil => rfl
  | cons d ds ih =>
    exact (insertDate_perm d (sortDates ds)).trans (ih.cons d)

theorem mem_sortDates {d : String} {l : List String} :
    d ∈ sortDates l ↔ d ∈ l := (sortDates_perm l).mem_iff

theorem insertDate_sorted {d : String} {l : List String}
    (h : List.Pairwise SLe l) : List.Pairwise SLe (insertDate d l) := by
  induction l with
  | nil => simp [insertDate]
  | cons e es ih =>
    by_cases hde : strLe d e
    · simp only [insertDate, if_pos hde]
      refine List.Pairwise.cons ?_ h
      intro x hx
      rcases List.mem_cons.mp hx with rfl | hx
      · exact hde
      · exact SLe_trans hde (List.rel_of_pairwise_cons h hx)
    · simp only [insertDate, if_neg hde]
      refine List.Pairwise.cons ?_ (ih h.of_cons)
      intro x hx
      rcases List.mem_cons.mp ((insertDate_perm d es).mem_iff.mp hx) with rfl | hx
      · exact SLe_of_not_le hde
      · exact List.rel_of_pairwise_cons h hx

theorem sortDates_sorted (l : List String) : List.Pairwise SLe (sortDates l) := by
  induction l with
  | nil => exact List.Pairwise.nil
  | cons d ds ih => exact insertDate_sorted ih

theorem sortedDatesOf_sorted (tickers : List TickerData)
    (benchmark : List PricePoint) (visible : List String) (startDate : String) :
    List.Pairwise SLt (sortedDatesOf tickers benchmark visible startDate) := by
  have hnd : (sortedDatesOf tickers benchmark visible startDate).Nodup :=
    ((sortDates_perm _).nodup_iff).mpr (List.nodup_dedup _)
  have hle := sortDates_sorted (allDatesOf tickers benchmark visible startDate).dedup
  exact (hle.and hnd).imp fun h => SLt_of_SLe_of_ne h.1 h.2

/-! ## JavaScript maps and objects -/

theorem jsMapGet_eq_none {β : Type} {m : List (String × β)} {k : String}
    (h : ∀ p ∈ m, p.1 ≠ k) : jsMapGet m k = none := by
  have : m.find? (fun p => decide (p.1 = k)) = none :=
    List.find?_eq_none.mpr fun p hp => by simpa using h p hp
  simp [jsMapGet, this]

theorem jsMapSet_fresh {β : Type} {m : List (String × β)} {k : String} {v : β}
    (h : ∀ p ∈ m, p.1 ≠ k) : jsMapSet m k v = m ++ [(k, v)] := by
  have : m.find? (fun p => decide (p.1 = k)) = none :=
    List.find?_eq_none.mpr fun p hp => by simpa using h p hp
  simp [jsMapSet, this]

theorem jsMapGet_assoc_map {α β : Type} (l : List α) (key : α → String)
    (val : α → β) (k : String) :
    jsMapGet (l.map fun a => (key a, val a)) k =
      (l.find? fun a => decide (key a = k)).map val := by
  induction l with
  | nil => rfl
  | cons a as ih =>
    by_cases h : key a = k
    · simp [jsMapGet, List.find?_cons, h]
    · simpa [jsMapGet, List.find?_cons, h] using ih

theorem jsMapOfList_go {β : Type} :
    ∀ (l : List (String × β)) (acc : List (String × β)),
      (∀ p ∈ l, ∀ q ∈ acc, q.1 ≠ p.1) → (l.map Prod.fst).Nodup →
      l.foldl (fun m p => jsMapSet m p.1 p.2) acc = acc ++ l
  | [], acc, _, _ => by simp
  | p :: ps, acc, hdisj, hnd => by
    have hfresh : jsMapSet acc p.1 p.2 = acc ++ [p] := by
      have := jsMapSet_fresh (m := acc) (k := p.1) (v := p.2)
        (fun q hq => hdisj p (List.mem_cons_self p ps) q hq)
      simpa using this
    have hnd' : (ps.map Prod.fst).Nodup := (List.nodup_cons.mp hnd).2
    have hhead : p.1 ∉ ps.map Prod.fst := (List.nodup_cons.mp hnd).1
    have hdisj' : ∀ q ∈ ps, ∀ r ∈ acc ++ [p], r.1 ≠ q.1 := by
      intro q hq r hr
      rcases List.mem_append.mp hr with hr | hr
      · exact hdisj q (List.mem_cons_of_mem p hq) r hr
      · rcases List.mem_singleton.mp hr with rfl
        intro hcontra
        exact hhead (hcontra ▸ List.mem_map_of_mem Prod.fst hq)
    calc (p :: ps).foldl (fun m q => jsMapSet m q.1 q.2) acc
        = ps.foldl (fun m q => jsMapSet m q.1 q.2) (acc ++ [p]) := by
          simp [List.foldl_cons, hfresh]
      _ = (acc ++ [p]) ++ ps := jsMapOfList_go ps (acc ++ [p]) hdisj' hnd'
      _ = acc ++ (p :: ps) := by simp

theorem jsMapOfList_eq_self {β : Type} {l : List (String × β)}
    (h : (l.map Prod.fst).Nodup) : jsMapOfList l = l := by
  simpa [jsMapOfList] using jsMapOfList_go l [] (by simp) h

theorem jsObjGet_nil (k : String) : jsObjGet [] k = none := rfl

theorem jsObjGet_eq_none {cells : List (String × ℚ)} {k : String}
    (h : ∀ p ∈ cells, p.1 ≠ k) : jsObjGet cells k = none := by
  have : cells.reverse.find? (fun p => decide (p.1 = k)) = none :=
    List.find?_eq_none.mpr fun p hp => by
      simpa using h p (List.mem_reverse.mp hp)
  simp [jsObjGet, this]

theorem jsObjGet_append_right_none {l₁ l₂ : List (String × ℚ)} {k : String}
    (h : ∀ p ∈ l₂, p.1 ≠ k) : jsObjGet (l₁ ++ l₂) k = jsObjGet l₁ k := by
  have hnone : l₂.reverse.find? (fun p => decide (p.1 = k)) = none :=
    List.find?_eq_none.mpr fun p hp => by
      simpa using h p (List.mem_reverse.mp hp)
  simp [jsObjGet, List.reverse_append, List.find?_append, hnone]

theorem jsObjGet_append_singleton (l : List (String × ℚ)) (k : String) (v : ℚ) :
    jsObjGet (l ++ [(k, v)]) k = some v := by
  simp [jsObjGet, List.reverse_append, List.find?_append]

/-! ## Folds that conditionally append -/

theorem foldl_filterMap {α β : Type} (step : List β → α → List β)
    (g : α → Option β) (hstep : ∀ acc x, step acc x = acc ++ (g x).toList) :
    ∀ (l : List α) (init : List β),
      l.foldl step init = init ++ l.filterMap g
  | [], init => by simp
  | x :: xs, init => by
    rw [List.foldl_cons, hstep, foldl_filterMap step g hstep xs,
      List.filterMap_cons]
    cases g x <;> simp

theorem mem_foldl_append {α : Type} (step : List String → α → List String)
    (g : α → List String) (hstep : ∀ acc x, step acc x = acc ++ g x) :
    ∀ (l : List α) (init : List String) (d : String),
      d ∈ l.foldl step init ↔ d ∈ init ∨ ∃ x ∈ l, d ∈ g x
  | [], init, d => by simp
  | x :: xs, init, d => by
    rw [List.foldl_cons, hstep, mem_foldl_append step g hstep xs]
    simp only [List.mem_append, List.mem_cons]
    constructor
    · rintro (⟨h | h⟩ | ⟨y, hy, h⟩)
      · exact Or.inl h
      · exact Or.inr ⟨x, Or.inl rfl, h⟩
      · exact Or.inr ⟨y, Or.inr hy, h⟩
    · rintro (h | ⟨y, rfl | hy, h⟩)
      · exact Or.inl (Or.inl h)
      · exact Or.inl (Or.inr h)
      · exact Or.inr ⟨y, hy, h⟩

/-! ## Keyed association lists -/

theorem find?_key_eq {α : Type} :
    ∀ (l : List α) (key : α → String), (l.map key).Nodup → ∀ x ∈ l,
      l.find? (fun a => decide (key a = key x)) = some x
  | [], _, _, x, hx => absurd hx (List.not_mem_nil x)
  | y :: ys, key, hnd, x, hx => by
    have hnd' := List.nodup_cons.mp hnd
    by_cases h : key y = key x
    · rcases List.mem_cons.mp hx with rfl | hx
      · simp [List.find?_cons, h]
      · exact absurd (h ▸ List.mem_map_of_mem key hx) hnd'.1
    · rcases List.mem_cons.mp hx with rfl | hx
      · exact absurd rfl h
      · simpa [List.find?_cons, h] using find?_key_eq ys key hnd'.2 x hx

theorem mem_filterMap_key {α β : Type} {l : List α} {key : α → String}
    {g : α → Option (String × β)} (hg : ∀ a p, g a = some p → p.1 = key a) :
    ∀ p ∈ l.filterMap g, p.1 ∈ l.map key := by
  intro p hp
  rcases List.mem_filterMap.mp hp with ⟨a, ha, hga⟩
  exact hg a p hga ▸ List.mem_map_of_mem key ha

theorem map_fst_filterMap_sublist {α β : Type} :
    ∀ (l : List α) (key : α → String) (g : α → Option (String × β)),
      (∀ a p, g a = some p → p.1 = key a) →
      ((l.filterMap g).map Prod.fst).Sublist (l.map key)
  | [], _, _, _ => by simp
  | y :: ys, key, g, hg => by
    cases hgy : g y with
    | none =>
      simpa [List.filterMap_cons, hgy] using
        (map_fst_filterMap_sublist ys key g hg).cons (key y)
    | some p =>
      simpa [List.filterMap_cons, hgy, hg y p hgy] using
        (map_fst_filterMap_sublist ys key g hg).cons₂ (key y)

theorem jsMapGet_filterMap_keyed {α β : Type} :
    ∀ (l : List α) (key : α → String) (g : α → Option (String × β)),
      (∀ a p, g a = some p → p.1 = key a) → (l.map key).Nodup → ∀ x ∈ l,
      jsMapGet (l.filterMap g) (key x) = (g x).map (fun p => p.2)
  | [], _, _, _, _, x, hx => absurd hx (List.not_mem_nil x)
  | y :: ys, key, g, hg, hnd, x, hx => by
    have hnd' := List.nodup_cons.mp hnd
    rcases List.mem_cons.mp hx with rfl | hx
    · cases hgy : g x with
      | none =>
        rw [List.filterMap_cons_none hgy]
        refine (jsMapGet_eq_none ?_).trans (by simp)
        intro p hp hcontra
        exact hnd'.1 (hcontra ▸ mem_filterMap_key hg p hp)
      | some p =>
        rw [List.filterMap_cons_some hgy]
        simp [jsMapGet, List.find?_cons, hg x p hgy, hgy]
    · cases hgy : g y with
      | none =>
        rw [List.filterMap_cons_none hgy]
        exact jsMapGet_filterMap_keyed ys key g hg hnd'.2 x hx
      | some p =>
        rw [List.filterMap_cons_some hgy]
        have hne : p.1 ≠ key x := by
          rw [hg y p hgy]
          intro hcontra
          exact hnd'.1 (hcontra ▸ List.mem_map_of_mem key hx)
        simpa [jsMapGet, List.find?_cons, hne] using
          jsMapGet_filterMap_keyed ys key g hg hnd'.2 x hx

theorem jsObjGet_eq_jsMapGet_of_nodup :
    ∀ {l : List (String × ℚ)} {k : String}, (l.map Prod.fst).Nodup →
      jsObjGet l k = jsMapGet l k
  | [], _, _ => rfl
  | p :: ps, k, hnd => by
    have hnd' := List.nodup_cons.mp hnd
    by_cases hk : p.1 = k
    · have hnone : ps.reverse.find? (fun q => decide (q.1 = k)) = none := by
        refine List.find?_eq_none.mpr fun q hq => ?_
        simp only [decide_eq_true_eq]
        intro hcontra
        exact hnd'.1 ((hk.symm ▸ hcontra) ▸
          List.mem_map_of_mem Prod.fst (List.mem_reverse.mp hq))
      simp [jsObjGet, jsMapGet, List.reverse_cons, List.find?_append, hnone,
        List.find?_cons, hk]
    · have : jsObjGet ps k = jsMapGet ps k := jsObjGet_eq_jsMapGet_of_nodup hnd'.2
      simp only [jsObjGet, jsMapGet, List.reverse_cons, List.find?_append] at this ⊢
      simp [List.find?_cons, hk, this]

/-! ## `buildMaps` characterization -/

theorem buildMaps_go (visible : List String) (isSM : Bool) (sd : String) :
    ∀ (ts : List TickerData)
      (acc : List (String × List (String × ℚ)) × List (String × ℚ)),
      (∀ t ∈ ts, (∀ q ∈ acc.1, q.1 ≠ t.symbol) ∧ ∀ q ∈ acc.2, q.1 ≠ t.symbol) →
      (ts.map TickerData.symbol).Nodup →
      ts.foldl (buildMapsStep visible isSM sd) acc =
        (acc.1 ++ (visibleOf ts visible).map (fun t => (t.symbol, priceMapOf t)),
         acc.2 ++ (visibleOf ts visible).filterMap (baselineEntryOf isSM sd))
  | [], acc, _, _ => by simp [visibleOf]
  | t :: ts, acc, hdisj, hnd => by
    have hd := hdisj t (List.mem_cons_self t ts)
    have hnd' := List.nodup_cons.mp hnd
    have hdisj' : ∀ u ∈ ts, ∀ s : String,
        (∀ q ∈ acc.1, q.1 ≠ u.symbol) → s = t.symbol → s ≠ u.symbol := by
      intro u hu s _ hs hcontra
      exact hnd'.1 ((hs ▸ hcontra) ▸ List.mem_map_of_mem TickerData.symbol hu)
    by_cases hv : visible.contains t.symbol
    · have hv' : t.symbol ∈ visible := by simpa using hv
      have h1 : jsMapSet acc.1 t.symbol (priceMapOf t) =
          acc.1 ++ [(t.symbol, priceMapOf t)] := jsMapSet_fresh hd.1
      have hvis : visibleOf (t :: ts) visible = t :: visibleOf ts visible := by
        simp [visibleOf, List.filter_cons, hv']
      have hnext : ∀ (extra2 : List (String × ℚ)),
          (∀ q ∈ extra2, q.1 = t.symbol) →
          ∀ u ∈ ts,
            (∀ q ∈ acc.1 ++ [(t.symbol, priceMapOf t)], q.1 ≠ u.symbol) ∧
            ∀ q ∈ acc.2 ++ extra2, q.1 ≠ u.symbol := by
        intro extra2 hex u hu
        constructor
        · intro q hq
          rcases List.mem_append.mp hq with hq | hq
          · exact (hdisj u (List.mem_cons_of_mem t hu)).1 q hq
          · rcases List.mem_singleton.mp hq with rfl
            exact hdisj' u hu t.symbol (hdisj u (List.mem_cons_of_mem t hu)).1 rfl
        · intro q hq
          rcases List.mem_append.mp hq with hq | hq
          · exact (hdisj u (List.mem_cons_of_mem t hu)).2 q hq
          · exact hdisj' u hu q.1 (hdisj u (List.mem_cons_of_mem t hu)).1 (hex q hq)
      rcases hb : baselineOf isSM sd t with _ | b
      · have hstep : buildMapsStep visible isSM sd acc t =
            (acc.1 ++ [(t.symbol, priceMapOf t)], acc.2) := by
          unfold buildMapsStep
          rw [if_pos hv]
          simp [h1, hb]
        have hent : baselineEntryOf isSM sd t = none := by
          simp [baselineEntryOf, hb]
        rw [List.foldl_cons, hstep,
          buildMaps_go visible isSM sd ts _ (by simpa using hnext [] (by simp)) hnd'.2,
          hvis]
        simp [hent]
      · by_cases hb0 : b ≠ 0
        · have h2 : jsMapSet acc.2 t.symbol b = acc.2 ++ [(t.symbol, b)] :=
            jsMapSet_fresh hd.2
          have hstep : buildMapsStep visible isSM sd acc t =
              (acc.1 ++ [(t.symbol, priceMapOf t)], acc.2 ++ [(t.symbol, b)]) := by
            unfold buildMapsStep
            rw [if_pos hv]
            simp [h1, hb, hb0, h2]
          have hent : baselineEntryOf isSM sd t = some (t.symbol, b) := by
            simp [baselineEntryOf, hb, hb0]
          rw [List.foldl_cons, hstep,
            buildMaps_go visible isSM sd ts _
              (hnext [(t.symbol, b)] (by simp)) hnd'.2,
            hvis]
          simp [hent]
        · have hstep : buildMapsStep visible isSM sd acc t =
              (acc.1 ++ [(t.symbol, priceMapOf t)], acc.2) := by
            unfold buildMapsStep
            rw [if_pos hv]
            simp [h1, hb, hb0]
          have hent : baselineEntryOf isSM sd t = none := by
            simp [baselineEntryOf, hb, hb0]
          rw [List.foldl_cons, hstep,
            buildMaps_go visible isSM sd ts _ (by simpa using hnext [] (by simp)) hnd'.2,
            hvis]
          simp [hent]
    · have hv' : t.symbol ∉ visible := by simpa using hv
      have hstep : buildMapsStep visible isSM sd acc t = acc := by
        unfold buildMapsStep
        rw [if_neg hv]
      have hvis : visibleOf (t :: ts) visible = visibleOf ts visible := by
        simp [visibleOf, List.filter_cons, hv']
      rw [List.foldl_cons, hstep,
        buildMaps_go visible isSM sd ts acc
          (fun u hu => hdisj u (List.mem_cons_of_mem t hu)) hnd'.2,
        hvis]

theorem buildMaps_eq {tickers : List TickerData} (visible : List String)
    (isSM : Bool) (sd : String)
    (hnd : (tickers.map TickerData.symbol).Nodup) :
    buildMaps tickers visible isSM sd =
      ((visibleOf tickers visible).map (fun t => (t.symbol, priceMapOf t)),
       (visibleOf tickers visible).filterMap (baselineEntryOf isSM sd)) := by
  simpa [buildMaps] using buildMaps_go visible isSM sd tickers ([], []) (by simp) hnd

/-! ## `buildRow` characterization -/

theorem buildRow_cells (tm : List (String × List (String × ℚ)))
    (bp bm : List (String × ℚ)) (bb : Option ℚ) (d : String) :
    (buildRow tm bp bm bb d).cells = tm.filterMap (cellOf bp d) ++ spyCellOf bm bb d := by
  have hstep : ∀ (cs : List (String × ℚ)) (e : String × List (String × ℚ)),
      (match jsMapGet e.2 d, jsMapGet bp e.1 with
        | some price, some baseline =>
          if price ≠ 0 ∧ baseline ≠ 0 then
            cs ++ [(e.1, round2 (price / baseline * 100))]
          else cs
        | _, _ => cs) = cs ++ (cellOf bp d e).toList := by
    intro cs e
    unfold cellOf
    cases jsMapGet e.2 d <;> cases jsMapGet bp e.1 <;> simp
    split_ifs <;> simp
  unfold buildRow
  rw [foldl_filterMap _ (cellOf bp d) hstep]
  unfold spyCellOf
  cases jsMapGet bm d <;> cases bb <;> simp
  split_ifs <;> simp

theorem cellOf_key (bp : List (String × ℚ)) (d : String)
    (e : String × List (String × ℚ)) (c : String × ℚ)
    (h : cellOf bp d e = some c) : c.1 = e.1 := by
  unfold cellOf at h
  rcases h1 : jsMapGet e.2 d with _ | price <;> rw [h1] at h
  · exact absurd h (by simp)
  · rcases h2 : jsMapGet bp e.1 with _ | baseline <;> rw [h2] at h
    · exact absurd h (by simp)
    · change (if price ≠ 0 ∧ baseline ≠ 0 then
          some (e.1, round2 (price / baseline * 100)) else none) = some c at h
      by_cases hc : price ≠ 0 ∧ baseline ≠ 0
      · rw [if_pos hc] at h
        cases h
        rfl
      · rw [if_neg hc] at h
        cases h

theorem row_cell_ticker (tm : List (String × List (String × ℚ)))
    (bp bm : List (String × ℚ)) (bb : Option ℚ) (d : String)
    (hnd : (tm.map Prod.fst).Nodup) (hspy : ∀ e ∈ tm, e.1 ≠ "SPY")
    (e : String × List (String × ℚ)) (he : e ∈ tm) :
    jsObjGet (buildRow tm bp bm bb d).cells e.1 =
      (cellOf bp d e).map (fun p => p.2) := by
  rw [buildRow_cells]
  rw [jsObjGet_append_right_none (fun p hp => ?_)]
  · have hnodup : ((tm.filterMap (cellOf bp d)).map Prod.fst).Nodup :=
      (map_fst_filterMap_sublist tm Prod.fst (cellOf bp d)
        (fun a p h => cellOf_key bp d a p h)).nodup hnd
    rw [jsObjGet_eq_jsMapGet_of_nodup hnodup]
    exact jsMapGet_filterMap_keyed tm Prod.fst (cellOf bp d)
      (fun a p h => cellOf_key bp d a p h) hnd e he
  · unfold spyCellOf at hp
    rcases h1 : jsMapGet bm d with _ | benchPrice <;> rw [h1] at hp
    · exact absurd hp (by simp)
    · rcases h2 : bb with _ | bbv <;> rw [h2] at hp
      · exact absurd hp (by simp)
      · change p ∈ (if benchPrice ≠ 0 ∧ bbv ≠ 0 then
            [("SPY", round2 (benchPrice / bbv * 100))] else []) at hp
        by_cases hc : benchPrice ≠ 0 ∧ bbv ≠ 0
        · rw [if_pos hc] at hp
          rcases List.mem_singleton.mp hp with rfl
          exact fun hcontra => hspy e he hcontra.symm
        · rw [if_neg hc] at hp
          cases hp

theorem row_cell_spy (tm : List (String × List (String × ℚ)))
    (bp bm : List (String × ℚ)) (bb : Option ℚ) (d : String)
    (hspy : ∀ e ∈ tm, e.1 ≠ "SPY") :
    jsObjGet (buildRow tm bp bm bb d).cells "SPY" =
      ((spyCellOf bm bb d).head?).map (fun p => p.2) := by
  rw [buildRow_cells]
  have hticker : ∀ p ∈ tm.filterMap (cellOf bp d), p.1 ≠ "SPY" := by
    intro p hp
    rcases List.mem_filterMap.mp hp with ⟨a, ha, hga⟩
    exact (cellOf_key bp d a p hga) ▸ hspy a ha
  rcases hsc : spyCellOf bm bb d with _ | ⟨c, rest⟩
  · simp only [List.append_nil]
    rw [jsObjGet_eq_none hticker]
    rfl
  · have hkey : c.1 = "SPY" ∧ rest = [] := by
      unfold spyCellOf at hsc
      rcases h1 : jsMapGet bm d with _ | benchPrice <;> rw [h1] at hsc
      · cases hsc
      · rcases h2 : bb with _ | bbv <;> rw [h2] at hsc
        · cases hsc
        · change (if benchPrice ≠ 0 ∧ bbv ≠ 0 then
              [("SPY", round2 (benchPrice / bbv * 100))] else []) = c :: rest at hsc
          by_cases hc : benchPrice ≠ 0 ∧ bbv ≠ 0
          · rw [if_pos hc] at hsc
            cases hsc
            exact ⟨rfl, rfl⟩
          · rw [if_neg hc] at hsc
            cases hsc
    rcases hkey with ⟨hk, rfl⟩
    have : c = ("SPY", c.2) := by
      cases c
      simpa using hk
    rw [this]
    rw [jsObjGet_append_singleton]
    rfl

theorem buildRow_date (tm : List (String × List (String × ℚ)))
    (bp bm : List (String × ℚ)) (bb : Option ℚ) (d : String) :
    (buildRow tm bp bm bb d).date = d := rfl

/-! ## The date union -/

theorem mem_tickerDatesOf {tickers : List TickerData} {visible : List String}
    {sd d : String} :
    d ∈ tickerDatesOf tickers visible sd ↔
      ∃ t ∈ tickers, visible.contains t.symbol = true ∧
        ∃ p ∈ t.priceHistory, p.date = d ∧ strLe sd p.date = true := by
  unfold tickerDatesOf
  rw [mem_foldl_append _
    (fun t => if visible.contains t.symbol then
      (t.priceHistory.filter fun p => strLe sd p.date).map (fun p => p.date)
     else []) (fun acc t => by
      by_cases hv : t.symbol ∈ visible <;> simp [hv])]
  simp only [List.not_mem_nil, false_or]
  constructor
  · rintro ⟨t, ht, hd⟩
    by_cases hv : visible.contains t.symbol
    · rw [if_pos hv] at hd
      rcases List.mem_map.mp hd with ⟨p, hp, rfl⟩
      rcases List.mem_filter.mp hp with ⟨hp, hle⟩
      exact ⟨t, ht, hv, p, hp, rfl, hle⟩
    · rw [if_neg hv] at hd
      cases hd
  · rintro ⟨t, ht, hv, p, hp, rfl, hle⟩
    refine ⟨t, ht, ?_⟩
    rw [if_pos hv]
    exact List.mem_map.mpr ⟨p, List.mem_filter.mpr ⟨hp, hle⟩, rfl⟩

theorem mem_allDatesOf {tickers : List TickerData} {benchmark : List PricePoint}
    {visible : List String} {sd d : String} :
    d ∈ allDatesOf tickers benchmark visible sd ↔
      memUnionDate tickers benchmark visible sd d := by
  unfold allDatesOf memUnionDate
  rw [List.mem_append, mem_tickerDatesOf]
  constructor
  · rintro (⟨t, ht, hv, p, hp, rfl, hle⟩ | hd)
    · exact Or.inl ⟨t, ht, hv, p, hp, rfl, hle⟩
    · rcases List.mem_map.mp hd with ⟨p, hp, rfl⟩
      rcases List.mem_filter.mp hp with ⟨hp, hle⟩
      exact Or.inr ⟨p, hp, rfl, hle⟩
  · rintro (⟨t, ht, hv, p, hp, rfl, hle⟩ | ⟨p, hp, rfl, hle⟩)
    · exact Or.inl ⟨t, ht, hv, p, hp, rfl, hle⟩
    · exact Or.inr (List.mem_map.mpr ⟨p, List.mem_filter.mpr ⟨hp, hle⟩, rfl⟩)

theorem mem_sortedDatesOf {tickers : List TickerData}
    {benchmark : List PricePoint} {visible : List String} {sd d : String} :
    d ∈ sortedDatesOf tickers benchmark visible sd ↔
      memUnionDate tickers benchmark visible sd d := by
  unfold sortedDatesOf
  rw [mem_sortDates, List.mem_dedup, mem_allDatesOf]

theorem sortedDatesOf_ge {tickers : List TickerData}
    {benchmark : List PricePoint} {visible : List String} {sd d : String}
    (h : d ∈ sortedDatesOf tickers benchmark visible sd) : SLe sd d := by
  rcases mem_sortedDatesOf.mp h with ⟨t, _, _, p, _, rfl, hle⟩ | ⟨p, _, rfl, hle⟩
  · exact hle
  · exact hle

/-! ## `chartData` structure -/

theorem chartData_eq_of_ne_nil {tickers : List TickerData}
    {benchmark : List PricePoint} {visible : List String} {tr : TimeRange}
    {now : JDate} (h : tickers ≠ []) :
    chartData tickers benchmark visible tr now =
      (sortedDatesOf tickers benchmark visible (getStartDate tr tickers now)).map
        (buildRow
          (buildMaps tickers visible (decide (tr = TimeRange.sinceMention))
            (getStartDate tr tickers now)).1
          (buildMaps tickers visible (decide (tr = TimeRange.sinceMention))
            (getStartDate tr tickers now)).2
          (jsMapOfList (benchmark.map fun p => (p.date, p.close)))
          (benchmarkBaselineOf benchmark (getStartDate tr tickers now))) := by
  unfold chartData
  rw [if_neg (by simpa [List.isEmpty_iff] using h)]
  by_cases hsd :
      sortedDatesOf tickers benchmark visible (getStartDate tr tickers now) = []
  · simp [hsd]
  · rw [if_neg (by simpa [List.isEmpty_iff] using hsd)]

theorem chartData_dates {tickers : List TickerData}
    {benchmark : List PricePoint} {visible : List String} {tr : TimeRange}
    {now : JDate} (h : tickers ≠ []) :
    (chartData tickers benchmark visible tr now).map ChartPoint.date =
      sortedDatesOf tickers benchmark visible (getStartDate tr tickers now) := by
  rw [chartData_eq_of_ne_nil h, List.map_map]
  have : ∀ d, (ChartPoint.date ∘ buildRow
      (buildMaps tickers visible (decide (tr = TimeRange.sinceMention))
        (getStartDate tr tickers now)).1
      (buildMaps tickers visible (decide (tr = TimeRange.sinceMention))
        (getStartDate tr tickers now)).2
      (jsMapOfList (benchmark.map fun p => (p.date, p.close)))
      (benchmarkBaselineOf benchmark (getStartDate tr tickers now))) d = d :=
    fun d => rfl
  calc (sortedDatesOf tickers benchmark visible
          (getStartDate tr tickers now)).map _
      = (sortedDatesOf tickers benchmark visible
          (getStartDate tr tickers now)).map id := List.map_congr_left fun d _ => this d
    _ = _ := List.map_id _

/-! ## Sorting performance entries -/

theorem insertPerf_perm (p : PerfEntry) (l : List PerfEntry) :
    List.Perm (insertPerf p l) (p :: l) := by
  induction l with
  | nil => rfl
  | cons q qs ih =>
    by_cases h : q.perf ≤ p.perf
    · simp [insertPerf, h]
    · simp only [insertPerf, if_neg h]
      exact (ih.cons q).trans (List.Perm.swap p q qs)

theorem sortPerfs_perm (l : List PerfEntry) : List.Perm (sortPerfs l) l := by
  induction l with
  | nil => rfl
  | cons p ps ih => exact (insertPerf_perm p (sortPerfs ps)).trans (ih.cons p)

theorem insertPerf_sorted {p : PerfEntry} {l : List PerfEntry}
    (h : List.Pairwise (fun a b => b.perf ≤ a.perf) l) :
    List.Pairwise (fun a b => b.perf ≤ a.perf) (insertPerf p l) := by
  induction l with
  | nil => simp [insertPerf]
  | cons q qs ih =>
    by_cases hqp : q.perf ≤ p.perf
    · simp only [insertPerf, if_pos hqp]
      refine List.Pairwise.cons ?_ h
      intro x hx
      rcases List.mem_cons.mp hx with rfl | hx
      · exact hqp
      · exact le_trans (List.rel_of_pairwise_cons h hx) hqp
    · simp only [insertPerf, if_neg hqp]
      refine List.Pairwise.cons ?_ (ih h.of_cons)
      intro x hx
      rcases List.mem_cons.mp ((insertPerf_perm p qs).mem_iff.mp hx) with rfl | hx
      · exact le_of_not_le hqp
      · exact List.rel_of_pairwise_cons h hx

theorem sortPerfs_sorted (l : List PerfEntry) :
    List.Pairwise (fun a b => b.perf ≤ a.perf) (sortPerfs l) := by
  induction l with
  | nil => exact List.Pairwise.nil
  | cons p ps ih => exact insertPerf_sorted ih

/-! ## `performances` characterization -/

theorem performances_eq (cd : List ChartPoint) (visible : List String)
    (h2 : ¬ cd.length < 2) :
    performances cd visible = sortPerfs
      (visible.filterMap
        (perfEntryOf (cd.head?.getD ⟨"", []⟩) (cd.getLast?.getD ⟨"", []⟩)) ++
       (perfEntryOf (cd.head?.getD ⟨"", []⟩) (cd.getLast?.getD ⟨"", []⟩)
        "SPY").toList) := by
  unfold performances
  rw [if_neg h2]
  dsimp only
  have hstep : ∀ (ps : List PerfEntry) (sym : String),
      (match jsObjGet (cd.head?.getD ⟨"", []⟩).cells sym,
             jsObjGet (cd.getLast?.getD ⟨"", []⟩).cells sym with
        | some s, some e => if s ≠ 0 ∧ e ≠ 0 then ps ++ [⟨sym, e - s⟩] else ps
        | _, _ => ps) =
        ps ++ (perfEntryOf (cd.head?.getD ⟨"", []⟩)
          (cd.getLast?.getD ⟨"", []⟩) sym).toList := by
    intro ps sym
    unfold perfEntryOf
    cases jsObjGet (cd.head?.getD ⟨"", []⟩).cells sym <;>
      cases jsObjGet (cd.getLast?.getD ⟨"", []⟩).cells sym <;> simp
    split_ifs <;> simp
  rw [foldl_filterMap _
    (perfEntryOf (cd.head?.getD ⟨"", []⟩) (cd.getLast?.getD ⟨"", []⟩)) hstep]
  unfold perfEntryOf
  cases jsObjGet (cd.head?.getD ⟨"", []⟩).cells "SPY" <;>
    cases jsObjGet (cd.getLast?.getD ⟨"", []⟩).cells "SPY" <;> simp
  split_ifs <;> simp

theorem perfEntryOf_symbol {f l : ChartPoint} {sym : String} {e : PerfEntry}
    (h : perfEntryOf f l sym = some e) : e.symbol = sym := by
  unfold perfEntryOf at h
  rcases h1 : jsObjGet f.cells sym with _ | s <;> rw [h1] at h
  · exact absurd h (by simp)
  · rcases h2 : jsObjGet l.cells sym with _ | v <;> rw [h2] at h
    · exact absurd h (by simp)
    · change (if s ≠ 0 ∧ v ≠ 0 then some ⟨sym, v - s⟩ else none) = some e at h
      by_cases hc : s ≠ 0 ∧ v ≠ 0
      · rw [if_pos hc] at h
        cases h
        rfl
      · rw [if_neg hc] at h
        cases h

theorem filter_filterMap_symbol {g : String → Option PerfEntry}
    (hg : ∀ sym e, g sym = some e → e.symbol = sym) :
    ∀ {visible : List String} {s : String}, visible.Nodup → s ∈ visible →
      (visible.filterMap g).filter (fun e => decide (e.symbol = s)) = (g s).toList
  | [], s, _, hs => absurd hs (List.not_mem_nil s)
  | y :: ys, s, hnd, hs => by
    have hnd' := List.nodup_cons.mp hnd
    have hmemsym : ∀ e ∈ ys.filterMap g, e.symbol ∈ ys := by
      intro e he
      rcases List.mem_filterMap.mp he with ⟨sym, hsym, hgs⟩
      exact (hg sym e hgs) ▸ hsym
    rcases List.mem_cons.mp hs with rfl | hs
    · cases hgy : g s with
      | none =>
        rw [List.filterMap_cons_none hgy]
        rw [List.filter_eq_nil_iff.mpr fun e he => by
          simp only [decide_eq_true_eq]
          intro hcontra
          exact hnd'.1 (hcontra ▸ hmemsym e he)]
        simp [hgy]
      | some e =>
        rw [List.filterMap_cons_some hgy]
        rw [List.filter_cons]
        rw [if_pos (by simpa using hg s e hgy)]
        rw [List.filter_eq_nil_iff.mpr fun x hx => by
          simp only [decide_eq_true_eq]
          intro hcontra
          exact hnd'.1 (hcontra ▸ hmemsym x hx)]
        simp [hgy]
    · cases hgy : g y with
      | none =>
        rw [List.filterMap_cons_none hgy]
        exact filter_filterMap_symbol hg hnd'.2 hs
      | some e =>
        rw [List.filterMap_cons_some hgy]
        rw [List.filter_cons]
        rw [if_neg (by
          simp only [decide_eq_true_eq]
          rw [hg y e hgy]
          intro hcontra
          exact hnd'.1 (hcontra ▸ hs))]
        exact filter_filterMap_symbol hg hnd'.2 hs

theorem filter_filterMap_symbol_none {g : String → Option PerfEntry}
    (hg : ∀ sym e, g sym = some e → e.symbol = sym) {visible : List String}
    {s : String} (hnone : g s = none) :
    (visible.filterMap g).filter (fun e => decide (e.symbol = s)) = [] := by
  refine List.filter_eq_nil_iff.mpr fun e he => ?_
  simp only [decide_eq_true_eq]
  intro hcontra
  rcases List.mem_filterMap.mp he with ⟨sym, _, hgs⟩
  rw [hg sym e hgs] at hcontra
  rw [hcontra] at hgs
  rw [hnone] at hgs
  cases hgs

/-- The unique performance entry for a symbol, read through `List.filter`:
permutations (the descending sort) preserve it. -/
theorem performances_filter_eq {cd : List ChartPoint} {visible : List String}
    (h2 : ¬ cd.length < 2) (s : String) (hnd : visible.Nodup)
    (hspyv : "SPY" ∉ visible) (hs : s ∈ visible) :
    (performances cd visible).filter (fun e => decide (e.symbol = s)) =
      (perfEntryOf (cd.head?.getD ⟨"", []⟩) (cd.getLast?.getD ⟨"", []⟩)
        s).toList := by
  rw [performances_eq cd visible h2]
  have hperm := (sortPerfs_perm
    (visible.filterMap
      (perfEntryOf (cd.head?.getD ⟨"", []⟩) (cd.getLast?.getD ⟨"", []⟩)) ++
     (perfEntryOf (cd.head?.getD ⟨"", []⟩) (cd.getLast?.getD ⟨"", []⟩)
      "SPY").toList)).filter (fun e => decide (e.symbol = s))
  have htarget :
      ((visible.filterMap
        (perfEntryOf (cd.head?.getD ⟨"", []⟩) (cd.getLast?.getD ⟨"", []⟩)) ++
       (perfEntryOf (cd.head?.getD ⟨"", []⟩) (cd.getLast?.getD ⟨"", []⟩)
        "SPY").toList).filter (fun e => decide (e.symbol = s)))
      = (perfEntryOf (cd.head?.getD ⟨"", []⟩) (cd.getLast?.getD ⟨"", []⟩)
          s).toList := by
    rw [List.filter_append]
    rw [filter_filterMap_symbol (fun sym e h => perfEntryOf_symbol h) hnd hs]
    have hspy : ((perfEntryOf (cd.head?.getD ⟨"", []⟩)
        (cd.getLast?.getD ⟨"", []⟩) "SPY").toList).filter
        (fun e => decide (e.symbol = s)) = [] := by
      refine List.filter_eq_nil_iff.mpr fun e he => ?_
      simp only [decide_eq_true_eq]
      rcases h : perfEntryOf (cd.head?.getD ⟨"", []⟩)
          (cd.getLast?.getD ⟨"", []⟩) "SPY" with _ | e2 <;> rw [h] at he
      · cases he
      · rcases List.mem_singleton.mp (by simpa using he) with rfl
        rw [perfEntryOf_symbol h]
        intro hcontra
        exact hspyv (hcontra ▸ hs)
    rw [hspy, List.append_nil]
  rw [htarget] at hperm
  rcases h : perfEntryOf (cd.head?.getD ⟨"", []⟩) (cd.getLast?.getD ⟨"", []⟩) s
    with _ | e <;> rw [h] at hperm
  · simpa using hperm.eq_nil
  · simpa using List.perm_singleton.mp (by simpa using hperm)

/-! ## The minimum mention date -/

theorem foldl_mentionMin_spec :
    ∀ (l : List TickerData) (init : String),
      (l.foldl mentionMinStep init = init ∨
        l.foldl mentionMinStep init ∈ l.map TickerData.mentionDate) ∧
      SLe (l.foldl mentionMinStep init) init ∧
      ∀ t ∈ l, SLe (l.foldl mentionMinStep init) t.mentionDate
  | [], init => ⟨Or.inl rfl, SLe_refl init, by simp⟩
  | u :: us, init => by
    rw [List.foldl_cons]
    by_cases hcmp : strLt u.mentionDate init
    · have hstep : mentionMinStep init u = u.mentionDate := by
        simp [mentionMinStep, hcmp]
      rw [hstep]
      obtain ⟨hmem, hle, hall⟩ := foldl_mentionMin_spec us u.mentionDate
      refine ⟨?_, ?_, ?_⟩
      · rcases hmem with h | h
        · exact Or.inr (by simp [h])
        · exact Or.inr (by simp [List.mem_cons_of_mem, h])
      · exact SLe_trans hle (SLe_of_SLt hcmp)
      · intro t ht
        rcases List.mem_cons.mp ht with rfl | ht
        · exact hle
        · exact hall t ht
    · have hstep : mentionMinStep init u = init := by
        simp [mentionMinStep, hcmp]
      rw [hstep]
      obtain ⟨hmem, hle, hall⟩ := foldl_mentionMin_spec us init
      refine ⟨?_, hle, ?_⟩
      · rcases hmem with h | h
        · exact Or.inl h
        · exact Or.inr (by simp [List.mem_cons_of_mem, h])
      · intro t ht
        rcases List.mem_cons.mp ht with rfl | ht
        · exact SLe_trans hle (SLe_of_not_SLt hcmp)
        · exact hall t ht

/-! ## `find?` on sorted lists -/

theorem find?_ge_min {target : String} :
    ∀ {l : List PricePoint}, DatesSorted l →
      ∀ {p0 : PricePoint}, l.find? (fun p => strLe target p.date) = some p0 →
      ∀ q ∈ l, strLe target q.date = true → SLe p0.date q.date := by
  intro l hs
  induction l with
  | nil => intro p0 h; cases h
  | cons a as ih =>
    intro p0 hfind q hq hqle
    by_cases ha : strLe target a.date
    · rw [(List.find?_cons_of_pos as ha :
        List.find? (fun p => strLe target p.date) (a :: as) = some a)] at hfind
      cases hfind
      rcases List.mem_cons.mp hq with rfl | hq
      · exact SLe_refl _
      · exact List.rel_of_pairwise_cons hs hq
    · rw [(List.find?_cons_of_neg as ha :
        List.find? (fun p => strLe target p.date) (a :: as) =
          List.find? (fun p => strLe target p.date) as)] at hfind
      rcases List.mem_cons.mp hq with rfl | hq
      · exact absurd hqle ha
      · exact ih hs.of_cons hfind q hq hqle

theorem find?_min_first {p : String → Bool} :
    ∀ {l : List String}, List.Pairwise SLe l →
      ∀ {d0 : String}, d0 ∈ l → p d0 = true →
      (∀ d ∈ l, p d = true → SLe d0 d) → l.find? p = some d0 := by
  intro l hs
  induction l with
  | nil => intro d0 h; cases h
  | cons a as ih =>
    intro d0 hd0 hp hmin
    by_cases ha : p a
    · rw [(List.find?_cons_of_pos as ha : List.find? p (a :: as) = some a)]
      rcases List.mem_cons.mp hd0 with rfl | hd0
      · rfl
      · have h1 : SLe d0 a := hmin a (List.mem_cons_self a as) ha
        have h2 : SLe a d0 := List.rel_of_pairwise_cons hs hd0
        rw [SLe_antisymm h2 h1]
    · rw [(List.find?_cons_of_neg as ha :
        List.find? p (a :: as) = List.find? p as)]
      rcases List.mem_cons.mp hd0 with rfl | hd0
      · exact absurd hp ha
      · exact ih hs.of_cons hd0 hp fun d hd hpd =>
          hmin d (List.mem_cons_of_mem a hd) hpd

/-! ## Lookups through the pipeline -/

theorem jsMapGet_pricePairs {l : List PricePoint}
    (hnd : (l.map PricePoint.date).Nodup) (d : String) :
    jsMapGet (jsMapOfList (l.map fun p => (p.date, p.close))) d =
      (l.find? fun p => decide (p.date = d)).map (fun p => p.close) := by
  rw [jsMapOfList_eq_self (by simpa [List.map_map, Function.comp] using hnd)]
  exact jsMapGet_assoc_map l (fun p => p.date) (fun p => p.close) d

theorem jsMapGet_priceMapOf {t : TickerData}
    (hnd : (t.priceHistory.map PricePoint.date).Nodup) (d : String) :
    jsMapGet (priceMapOf t) d =
      (t.priceHistory.find? fun p => decide (p.date = d)).map (fun p => p.close) :=
  jsMapGet_pricePairs hnd d

theorem baselineEntryOf_key {isSM : Bool} {sd : String} {t : TickerData}
    {p : String × ℚ} (h : baselineEntryOf isSM sd t = some p) : p.1 = t.symbol := by
  unfold baselineEntryOf at h
  rcases h1 : baselineOf isSM sd t with _ | b <;> rw [h1] at h
  · cases h
  · change (if b ≠ 0 then some (t.symbol, b) else none) = some p at h
    by_cases hb : b ≠ 0
    · rw [if_pos hb] at h
      cases h
      rfl
    · rw [if_neg hb] at h
      cases h

theorem visibleOf_symbols_nodup {tickers : List TickerData}
    {visible : List String} (hnd : (tickers.map TickerData.symbol).Nodup) :
    ((visibleOf tickers visible).map TickerData.symbol).Nodup :=
  ((List.filter_sublist tickers).map TickerData.symbol).nodup hnd

theorem mem_visibleOf {tickers : List TickerData} {visible : List String}
    {t : TickerData} (ht : t ∈ tickers)
    (hv : visible.contains t.symbol = true) : t ∈ visibleOf tickers visible :=
  List.mem_filter.mpr ⟨ht, hv⟩

theorem buildMaps_fst_get {tickers : List TickerData} {visible : List String}
    (isSM : Bool) (sd : String) (hnd : (tickers.map TickerData.symbol).Nodup)
    {t : TickerData} (ht : t ∈ tickers)
    (hv : visible.contains t.symbol = true) :
    jsMapGet (buildMaps tickers visible isSM sd).1 t.symbol =
      some (priceMapOf t) := by
  rw [buildMaps_eq visible isSM sd hnd]
  have := jsMapGet_assoc_map (visibleOf tickers visible)
    (fun u => u.symbol) priceMapOf t.symbol
  rw [this]
  rw [find?_key_eq (visibleOf tickers visible) (fun u => u.symbol)
    (visibleOf_symbols_nodup hnd) t (mem_visibleOf ht hv)]
  rfl

theorem buildMaps_snd_get {tickers : List TickerData} {visible : List String}
    (isSM : Bool) (sd : String) (hnd : (tickers.map TickerData.symbol).Nodup)
    {t : TickerData} (ht : t ∈ tickers)
    (hv : visible.contains t.symbol = true) :
    jsMapGet (buildMaps tickers visible isSM sd).2 t.symbol =
      (baselineEntryOf isSM sd t).map (fun p => p.2) := by
  rw [buildMaps_eq visible isSM sd hnd]
  exact jsMapGet_filterMap_keyed (visibleOf tickers visible)
    (fun u => u.symbol) (baselineEntryOf isSM sd)
    (fun a p h => baselineEntryOf_key h) (visibleOf_symbols_nodup hnd)
    t (mem_visibleOf ht hv)

theorem chartData_row_shape {tickers : List TickerData}
    {benchmark : List PricePoint} {visible : List String} {tr : TimeRange}
    {now : JDate} {row : ChartPoint} (hne : tickers ≠ [])
    (hrow : row ∈ chartData tickers benchmark visible tr now) :
    row.date ∈ sortedDatesOf tickers benchmark visible
        (getStartDate tr tickers now) ∧
      row = buildRow
        (buildMaps tickers visible (decide (tr = TimeRange.sinceMention))
          (getStartDate tr tickers now)).1
        (buildMaps tickers visible (decide (tr = TimeRange.sinceMention))
          (getStartDate tr tickers now)).2
        (jsMapOfList (benchmark.map fun p => (p.date, p.close)))
        (benchmarkBaselineOf benchmark (getStartDate tr tickers now))
        row.date := by
  rw [chartData_eq_of_ne_nil hne] at hrow
  rcases List.mem_map.mp hrow with ⟨d, hd, rfl⟩
  rw [buildRow_date]
  exact ⟨hd, rfl⟩

theorem chart_cell_ticker {tickers : List TickerData}
    {benchmark : List PricePoint} {visible : List String} {tr : TimeRange}
    {now : JDate} {row : ChartPoint} {t : TickerData} (hne : tickers ≠ [])
    (hnd : (tickers.map TickerData.symbol).Nodup)
    (hspy : ∀ u ∈ tickers, u.symbol ≠ "SPY") (ht : t ∈ tickers)
    (hv : visible.contains t.symbol = true)
    (hrow : row ∈ chartData tickers benchmark visible tr now) :
    jsObjGet row.cells t.symbol =
      (cellOf (buildMaps tickers visible (decide (tr = TimeRange.sinceMention))
          (getStartDate tr tickers now)).2 row.date
        (t.symbol, priceMapOf t)).map (fun p => p.2) := by
  obtain ⟨-, hshape⟩ := chartData_row_shape hne hrow
  rw [hshape]
  have htm : (t.symbol, priceMapOf t) ∈
      (buildMaps tickers visible (decide (tr = TimeRange.sinceMention))
        (getStartDate tr tickers now)).1 := by
    rw [buildMaps_eq visible _ _ hnd]
    exact List.mem_map.mpr ⟨t, mem_visibleOf ht hv, rfl⟩
  have hkeys : (((buildMaps tickers visible
      (decide (tr = TimeRange.sinceMention))
      (getStartDate tr tickers now)).1).map Prod.fst).Nodup := by
    rw [buildMaps_eq visible _ _ hnd]
    simpa [List.map_map, Function.comp] using visibleOf_symbols_nodup hnd
  have hspy' : ∀ e ∈ (buildMaps tickers visible
      (decide (tr = TimeRange.sinceMention))
      (getStartDate tr tickers now)).1, e.1 ≠ "SPY" := by
    rw [buildMaps_eq visible _ _ hnd]
    intro e he
    rcases List.mem_map.mp he with ⟨u, hu, rfl⟩
    exact hspy u (List.mem_of_mem_filter hu)
  exact row_cell_ticker _ _ _ _ _ hkeys hspy' (t.symbol, priceMapOf t) htm

theorem chart_cell_spy {tickers : List TickerData}
    {benchmark : List PricePoint} {visible : List String} {tr : TimeRange}
    {now : JDate} {row : ChartPoint} (hne : tickers ≠ [])
    (hnd : (tickers.map TickerData.symbol).Nodup)
    (hspy : ∀ u ∈ tickers, u.symbol ≠ "SPY")
    (hrow : row ∈ chartData tickers benchmark visible tr now) :
    jsObjGet row.cells "SPY" =
      ((spyCellOf (jsMapOfList (benchmark.map fun p => (p.date, p.close)))
        (benchmarkBaselineOf benchmark (getStartDate tr tickers now))
        row.date).head?).map (fun p => p.2) := by
  obtain ⟨-, hshape⟩ := chartData_row_shape hne hrow
  rw [hshape]
  have hspy' : ∀ e ∈ (buildMaps tickers visible
      (decide (tr = TimeRange.sinceMention))
      (getStartDate tr tickers now)).1, e.1 ≠ "SPY" := by
    rw [buildMaps_eq visible _ _ hnd]
    intro e he
    rcases List.mem_map.mp he with ⟨u, hu, rfl⟩
    exact hspy u (List.mem_of_mem_filter hu)
  exact row_cell_spy _ _ _ _ _ hspy'

/-- The `reduce` over a nonempty ticker list yields a member of the mention
dates that is a lower bound of all of them. -/
theorem minFold_spec (t : TickerData) (ts : List TickerData) :
    (t :: ts).foldl mentionMinStep t.mentionDate ∈
        (t :: ts).map TickerData.mentionDate ∧
      ∀ u ∈ t :: ts,
        SLe ((t :: ts).foldl mentionMinStep t.mentionDate) u.mentionDate := by
  obtain ⟨hmem, hle, hall⟩ := foldl_mentionMin_spec (t :: ts) t.mentionDate
  refine ⟨?_, hall⟩
  rcases hmem with h | h
  · rw [h]
    exact List.mem_map_of_mem _ (List.mem_cons_self t ts)
  · exact h

/-! # Claims -/

/-- C6: under the `All` and `SinceMention` policies the cutoff date equals
the minimum mention date across all supplied entities (the computation never
consults the visible set), and with an empty entity list it falls back to
`now`. -/
theorem C6_cutoff_is_min_mention (tr : TimeRange)
    (htr : tr = TimeRange.all ∨ tr = TimeRange.sinceMention)
    (tickers : List TickerData) (now : JDate) :
    (tickers = [] → getStartDate tr tickers now = toIso now) ∧
    (tickers ≠ [] →
      getStartDate tr tickers now ∈ tickers.map TickerData.mentionDate ∧
        ∀ t ∈ tickers, SLe (getStartDate tr tickers now) t.mentionDate) := by
  rcases htr with rfl | rfl <;> rcases tickers with _ | ⟨t, ts⟩
  · exact ⟨fun _ => rfl, fun h => absurd rfl h⟩
  · exact ⟨fun h => absurd h (List.cons_ne_nil t ts), fun _ => minFold_spec t ts⟩
  · exact ⟨fun _ => rfl, fun h => absurd rfl h⟩
  · exact ⟨fun h => absurd h (List.cons_ne_nil t ts), fun _ => minFold_spec t ts⟩

/-- Witness for C6 at a concrete input: the cutoff is `"2024-01-05"`, the
smaller of the two mention dates, although only `"A"` would be visible. -/
theorem C6_witness :
    (([⟨"A", "2024-02-01", []⟩, ⟨"B", "2024-01-05", []⟩] : List TickerData) ≠ []) ∧
    (getStartDate TimeRange.all
        [⟨"A", "2024-02-01", []⟩, ⟨"B", "2024-01-05", []⟩] ⟨2024, 6, 1⟩ ∈
      ([⟨"A", "2024-02-01", []⟩, ⟨"B", "2024-01-05", []⟩] :
        List TickerData).map TickerData.mentionDate ∧
      ∀ t ∈ ([⟨"A", "2024-02-01", []⟩, ⟨"B", "2024-01-05", []⟩] : List TickerData),
        SLe (getStartDate TimeRange.all
          [⟨"A", "2024-02-01", []⟩, ⟨"B", "2024-01-05", []⟩] ⟨2024, 6, 1⟩)
          t.mentionDate) :=
  ⟨by decide,
    (C6_cutoff_is_min_mention TimeRange.all (Or.inl rfl)
      [⟨"A", "2024-02-01", []⟩, ⟨"B", "2024-01-05", []⟩] ⟨2024, 6, 1⟩).2
      (by decide)⟩

/-- C10 (amended): the performance summary is sorted in descending — not
strictly descending — order of `perf`; entries with equal performance are
both kept, so ties make the order non-strict.  The benchmark entry is pushed
into the same list before sorting and participates in the same order. -/
theorem C10_performances_sorted_desc (cd : List ChartPoint)
    (visible : List String) :
    List.Pairwise (fun a b => b.perf ≤ a.perf) (performances cd visible) := by
  unfold performances
  by_cases h : cd.length < 2
  · rw [if_pos h]
    exact List.Pairwise.nil
  · rw [if_neg h]
    dsimp only
    exact sortPerfs_sorted _

/-- Counterexample for C10 as stated: two tickers with identical data both
gain 10 points, so the emitted summary `[A: 10, B: 10]` is not *strictly*
descending. -/
theorem C10_counterexample :
    performances (chartData
        [⟨"A", "2024-01-01", [⟨"2024-01-02", 100⟩, ⟨"2024-01-03", 110⟩]⟩,
         ⟨"B", "2024-01-01", [⟨"2024-01-02", 100⟩, ⟨"2024-01-03", 110⟩]⟩]
        [] ["A", "B"] TimeRange.all ⟨2024, 6, 1⟩) ["A", "B"] =
      [⟨"A", 10⟩, ⟨"B", 10⟩] ∧
    ¬ List.Pairwise (fun a b : PerfEntry => a.perf > b.perf)
      [(⟨"A", 10⟩ : PerfEntry), ⟨"B", 10⟩] := by
  constructor
  · norm_num +decide [chartData, getStartDate, mentionMinStep, sortedDatesOf,
      allDatesOf, tickerDatesOf, sortDates, insertDate, List.dedup, buildMaps,
      buildMapsStep, buildRow, baselineOf, priceMapOf, jsMapOfList, jsMapSet,
      jsMapGet, jsObjGet, benchmarkBaselineOf, strLe, strLt, lexLe, round2,
      round_eq, performances, sortPerfs, insertPerf]
  · intro h
    have := List.rel_of_pairwise_cons h (List.mem_cons_self _ _)
    norm_num at this

/-- C9 (amended): `now` is read from the wall clock inside `getStartDate`
(modelled by the explicit `now` argument), so the output is a function of
(entities, benchmark, visible set, policy, now); under the `All` and
`SinceMention` policies with a nonempty entity list the output does not
depend on `now` at all. -/
theorem C9_now_independence (tickers : List TickerData)
    (benchmark : List PricePoint) (visible : List String) (tr : TimeRange)
    (htr : tr = TimeRange.all ∨ tr = TimeRange.sinceMention)
    (hne : tickers ≠ []) (now₁ now₂ : JDate) :
    chartData tickers benchmark visible tr now₁ =
        chartData tickers benchmark visible tr now₂ ∧
      performances (chartData tickers benchmark visible tr now₁) visible =
        performances (chartData tickers benchmark visible tr now₂) visible := by
  rcases tickers with _ | ⟨t, ts⟩
  · exact absurd rfl hne
  · rcases htr with rfl | rfl
    · exact ⟨rfl, rfl⟩
    · exact ⟨rfl, rfl⟩

/-- Witness for C9 (amended) at a concrete input. -/
theorem C9_witness :
    (([⟨"A", "2024-01-01", [⟨"2024-01-02", 10⟩]⟩] : List TickerData) ≠ []) ∧
    chartData [⟨"A", "2024-01-01", [⟨"2024-01-02", 10⟩]⟩] [] ["A"]
        TimeRange.all ⟨2024, 6, 1⟩ =
      chartData [⟨"A", "2024-01-01", [⟨"2024-01-02", 10⟩]⟩] [] ["A"]
        TimeRange.all ⟨2030, 12, 31⟩ :=
  ⟨by decide,
    (C9_now_independence _ _ _ _ (Or.inl rfl) (by decide) _ _).1⟩

/-- Counterexample for C9 as stated: with the `YTD` policy the same
(entities, benchmark, visible, policy) input yields different outputs at two
different wall-clock dates, so the computation is not a pure function of
those four inputs alone. -/
theorem C9_counterexample :
    chartData [⟨"A", "2024-01-05", [⟨"2024-01-06", 10⟩]⟩] [] ["A"]
        TimeRange.ytd ⟨2024, 6, 1⟩ ≠
      chartData [⟨"A", "2024-01-05", [⟨"2024-01-06", 10⟩]⟩] [] ["A"]
        TimeRange.ytd ⟨2025, 6, 1⟩ := by
  have h1 : chartData [⟨"A", "2024-01-05", [⟨"2024-01-06", 10⟩]⟩] [] ["A"]
      TimeRange.ytd ⟨2024, 6, 1⟩ = [⟨"2024-01-06", [("A", 100)]⟩] := by
    norm_num +decide [chartData, getStartDate, pad4, pad2, digitChar,
      sortedDatesOf, allDatesOf, tickerDatesOf, sortDates, insertDate,
      List.dedup, buildMaps, buildMapsStep, buildRow, baselineOf, priceMapOf,
      jsMapOfList, jsMapSet, jsMapGet, jsObjGet, benchmarkBaselineOf, strLe,
      strLt, lexLe, round2, round_eq]
  have h2 : chartData [⟨"A", "2024-01-05", [⟨"2024-01-06", 10⟩]⟩] [] ["A"]
      TimeRange.ytd ⟨2025, 6, 1⟩ = [] := by
    norm_num +decide [chartData, getStartDate, pad4, pad2, digitChar,
      sortedDatesOf, allDatesOf, tickerDatesOf, sortDates, insertDate,
      List.dedup, buildMaps, buildMapsStep, buildRow, baselineOf, priceMapOf,
      jsMapOfList, jsMapSet, jsMapGet, jsObjGet, benchmarkBaselineOf, strLe,
      strLt, lexLe, round2, round_eq]
  rw [h1, h2]
  simp

/-- C2 (amended): provided the supplied entity list is nonempty, the output
row dates are strictly ascending and form exactly the union of the
window-filtered dates of the visible entities and the benchmark — no row
invented, none dropped, invisible entities contribute nothing. -/
theorem C2_row_dates_union (tickers : List TickerData)
    (benchmark : List PricePoint) (visible : List String) (tr : TimeRange)
    (now : JDate) (hne : tickers ≠ []) :
    List.Pairwise SLt
        ((chartData tickers benchmark visible tr now).map ChartPoint.date) ∧
      ∀ d, d ∈ (chartData tickers benchmark visible tr now).map
          ChartPoint.date ↔
        memUnionDate tickers benchmark visible (getStartDate tr tickers now)
          d := by
  rw [chartData_dates hne]
  exact ⟨sortedDatesOf_sorted _ _ _ _, fun d => mem_sortedDatesOf⟩

/-- Witness for C2 (amended) at a concrete input. -/
theorem C2_witness :
    (([⟨"A", "2024-01-01", [⟨"2024-01-02", 10⟩]⟩] : List TickerData) ≠ []) ∧
    (List.Pairwise SLt
        ((chartData [⟨"A", "2024-01-01", [⟨"2024-01-02", 10⟩]⟩]
          [⟨"2024-01-03", 500⟩] ["A"] TimeRange.all ⟨2024, 6, 1⟩).map
          ChartPoint.date) ∧
      ∀ d, d ∈ (chartData [⟨"A", "2024-01-01", [⟨"2024-01-02", 10⟩]⟩]
          [⟨"2024-01-03", 500⟩] ["A"] TimeRange.all ⟨2024, 6, 1⟩).map
          ChartPoint.date ↔
        memUnionDate [⟨"A", "2024-01-01", [⟨"2024-01-02", 10⟩]⟩]
          [⟨"2024-01-03", 500⟩] ["A"]
          (getStartDate TimeRange.all
            [⟨"A", "2024-01-01", [⟨"2024-01-02", 10⟩]⟩] ⟨2024, 6, 1⟩) d) :=
  ⟨by decide,
    C2_row_dates_union [⟨"A", "2024-01-01", [⟨"2024-01-02", 10⟩]⟩]
      [⟨"2024-01-03", 500⟩] ["A"] TimeRange.all ⟨2024, 6, 1⟩ (by decide)⟩

/-- Counterexample for C2 as stated: with an empty entity list the early
return on line 80 discards the benchmark's in-window dates — the union
contains `"9999-01-01"` but the output has no rows. -/
theorem C2_counterexample :
    chartData [] [⟨"9999-01-01", 500⟩] [] TimeRange.all ⟨2024, 1, 1⟩ = [] ∧
    memUnionDate [] [⟨"9999-01-01", 500⟩] []
      (getStartDate TimeRange.all [] ⟨2024, 1, 1⟩) "9999-01-01" := by
  refine ⟨rfl, Or.inr ⟨⟨"9999-01-01", 500⟩, by simp, rfl, ?_⟩⟩
  decide

/-! ## Baseline helpers -/

theorem baselineOf_def (isSM : Bool) (sd : String) (t : TickerData) :
    baselineOf isSM sd t =
      (t.priceHistory.find?
        (fun p => strLe (if isSM then t.mentionDate else sd) p.date)).map
        (fun p => p.close) := rfl

theorem baselineEntryOf_of_find {isSM : Bool} {sd : String} {t : TickerData}
    {p0 : PricePoint}
    (hfind : t.priceHistory.find?
      (fun p => strLe (if isSM then t.mentionDate else sd) p.date) = some p0)
    (hc : p0.close ≠ 0) :
    baselineEntryOf isSM sd t = some (t.symbol, p0.close) := by
  unfold baselineEntryOf
  rw [baselineOf_def, hfind]
  simp [hc]

theorem baselineEntryOf_of_none {isSM : Bool} {sd : String} {t : TickerData}
    (hfind : t.priceHistory.find?
      (fun p => strLe (if isSM then t.mentionDate else sd) p.date) = none) :
    baselineEntryOf isSM sd t = none := by
  unfold baselineEntryOf
  rw [baselineOf_def, hfind]
  rfl

/-- C3: for every policy the stored entity baseline is the close of the
chronologically first PricePoint on or after the entity's baseline date —
its own mention date under SinceMention, otherwise the cutoff — never an
exact-date lookup; and the benchmark baseline is resolved identically with
the cutoff date (`getStartDate`) as its target under every policy. -/
theorem C3_baseline_first_on_or_after (tickers : List TickerData)
    (visible : List String) (isSM : Bool) (sd : String)
    (hnd : (tickers.map TickerData.symbol).Nodup) (t : TickerData)
    (ht : t ∈ tickers) (hv : visible.contains t.symbol = true)
    (hpos : ∀ p ∈ t.priceHistory, 0 < p.close)
    (hsorted : DatesSorted t.priceHistory) :
    (∀ p0, t.priceHistory.find?
        (fun p => strLe (if isSM then t.mentionDate else sd) p.date) =
          some p0 →
      jsMapGet (buildMaps tickers visible isSM sd).2 t.symbol =
          some p0.close ∧
        SLe (if isSM then t.mentionDate else sd) p0.date ∧
        ∀ q ∈ t.priceHistory,
          strLe (if isSM then t.mentionDate else sd) q.date = true →
            SLe p0.date q.date) ∧
    (t.priceHistory.find?
        (fun p => strLe (if isSM then t.mentionDate else sd) p.date) = none →
      jsMapGet (buildMaps tickers visible isSM sd).2 t.symbol = none) ∧
    (∀ (benchmark : List PricePoint), DatesSorted benchmark →
      ∀ (tr : TimeRange) (tks : List TickerData) (now : JDate) (p0 : PricePoint),
      benchmark.find?
          (fun p => strLe (getStartDate tr tks now) p.date) = some p0 →
        benchmarkBaselineOf benchmark (getStartDate tr tks now) =
            some p0.close ∧
          SLe (getStartDate tr tks now) p0.date ∧
          ∀ q ∈ benchmark, strLe (getStartDate tr tks now) q.date = true →
            SLe p0.date q.date) := by
  refine ⟨?_, ?_, ?_⟩
  · intro p0 hfind
    have hc : p0.close ≠ 0 :=
      ne_of_gt (hpos p0 (List.mem_of_find?_eq_some hfind))
    have hp0 := List.find?_some hfind
    refine ⟨?_, hp0, find?_ge_min hsorted hfind⟩
    rw [buildMaps_snd_get isSM sd hnd ht hv, baselineEntryOf_of_find hfind hc]
    rfl
  · intro hfind
    rw [buildMaps_snd_get isSM sd hnd ht hv, baselineEntryOf_of_none hfind]
    rfl
  · intro benchmark hbs tr tks now p0 hfind
    have hp0 := List.find?_some hfind
    refine ⟨?_, hp0, find?_ge_min hbs hfind⟩
    unfold benchmarkBaselineOf
    rw [hfind]
    rfl

/-- Witness for C3 at a concrete input (SinceMention: the mention date is
not a trading day, the baseline resolves to the first later close). -/
theorem C3_witness :
    (∀ p ∈ ([⟨"2024-01-12", 100⟩] : List PricePoint), (0 : ℚ) < p.close) ∧
    ([⟨"A", "2024-01-10", [⟨"2024-01-12", (100 : ℚ)⟩]⟩] :
        List TickerData).find? (fun u => decide (u.symbol = "A")) ≠ none ∧
    jsMapGet (buildMaps [⟨"A", "2024-01-10", [⟨"2024-01-12", (100 : ℚ)⟩]⟩]
        ["A"] true "2024-01-01").2 "A" = some 100 :=
  ⟨by decide, by decide,
    ((C3_baseline_first_on_or_after
      [⟨"A", "2024-01-10", [⟨"2024-01-12", 100⟩]⟩] ["A"] true "2024-01-01"
      (by decide) ⟨"A", "2024-01-10", [⟨"2024-01-12", 100⟩]⟩ (by decide)
      (by decide) (by decide) (by decide)).1 ⟨"2024-01-12", 100⟩
      (by decide)).1⟩

/-- C7: in `PriceChart`, when the latest row has truthy values for the
ticker and the benchmark, alpha is exactly the ticker performance minus the
benchmark performance — the difference of the two already-computed numbers,
with no rounding applied to alpha itself. -/
theorem C7_alpha_exact (ph bh : List PricePoint) (mention : String)
    (ld : PCPoint) (v : ℚ)
    (hlast : (priceChartData ph bh mention).getLast? = some ld)
    (h1 : ld.symVal ≠ 0) (h2 : ld.spy = some v) (h3 : v ≠ 0) :
    tickerPerfOf (priceChartData ph bh mention) = ld.symVal - 100 ∧
    spyPerfOf (priceChartData ph bh mention) = v - 100 ∧
    alphaOf (priceChartData ph bh mention) = (ld.symVal - 100) - (v - 100) ∧
    alphaOf (priceChartData ph bh mention) = ld.symVal - v := by
  have ht : tickerPerfOf (priceChartData ph bh mention) = ld.symVal - 100 := by
    unfold tickerPerfOf
    rw [hlast]
    simp [h1]
  have hs : spyPerfOf (priceChartData ph bh mention) = v - 100 := by
    unfold spyPerfOf
    rw [hlast]
    simp [h2, h3]
  refine ⟨ht, hs, ?_, ?_⟩
  · unfold alphaOf
    rw [ht, hs]
  · unfold alphaOf
    rw [ht, hs]
    ring

/-- Witness for C7 at a concrete input: the ticker gains 5, the benchmark 1,
alpha is exactly 105 − 101 = 4. -/
theorem C7_witness :
    (priceChartData [⟨"2024-01-10", 100⟩, ⟨"2024-01-11", 105⟩]
        [⟨"2024-01-10", 500⟩, ⟨"2024-01-11", 505⟩] "2024-01-10").getLast? =
      some ⟨"2024-01-11", 105, some 101, 105⟩ ∧
    alphaOf (priceChartData [⟨"2024-01-10", 100⟩, ⟨"2024-01-11", 105⟩]
        [⟨"2024-01-10", 500⟩, ⟨"2024-01-11", 505⟩] "2024-01-10") =
      (105 : ℚ) - 101 := by
  have hlast : (priceChartData [⟨"2024-01-10", 100⟩, ⟨"2024-01-11", 105⟩]
      [⟨"2024-01-10", 500⟩, ⟨"2024-01-11", 505⟩] "2024-01-10").getLast? =
      some ⟨"2024-01-11", 105, some 101, 105⟩ := by
    norm_num +decide [priceChartData, jsMapOfList, jsMapSet, jsMapGet, strLe,
      lexLe, round2, round_eq]
  exact ⟨hlast,
    (C7_alpha_exact [⟨"2024-01-10", 100⟩, ⟨"2024-01-11", 105⟩]
      [⟨"2024-01-10", 500⟩, ⟨"2024-01-11", 505⟩] "2024-01-10"
      ⟨"2024-01-11", 105, some 101, 105⟩ 101 hlast (by norm_num) rfl
      (by norm_num)).2.2.2⟩

/-! ## More helpers: concrete rows and cells -/

theorem cellOf_pair (bp : List (String × ℚ)) (d sym : String)
    (pm : List (String × ℚ)) :
    cellOf bp d (sym, pm) =
      match jsMapGet pm d, jsMapGet bp sym with
      | some price, some baseline =>
        if price ≠ 0 ∧ baseline ≠ 0 then
          some (sym, round2 (price / baseline * 100))
        else none
      | _, _ => none := rfl

theorem head_getD_mem {α : Type} (l : List α) (z : α) (h : l ≠ []) :
    l.head?.getD z ∈ l := by
  cases l with
  | nil => exact absurd rfl h
  | cons a as => simp

theorem getLast_getD_mem {α : Type} (l : List α) (z : α) (h : l ≠ []) :
    l.getLast?.getD z ∈ l := by
  cases l with
  | nil => exact absurd rfl h
  | cons a as =>
    rw [List.getLast?_eq_getLast (a :: as) (List.cons_ne_nil a as)]
    simp [List.getLast_mem (List.cons_ne_nil a as)]

/-- C8: a visible entity with no price point on or after its resolved
baseline date contributes no cell to any row and no entry to the performance
summary; absence is the only signal (every function involved is total). -/
theorem C8_absent_entity (tickers : List TickerData)
    (benchmark : List PricePoint) (visible : List String) (tr : TimeRange)
    (now : JDate) (t : TickerData) (hne : tickers ≠ [])
    (hnd : (tickers.map TickerData.symbol).Nodup)
    (hspy : ∀ u ∈ tickers, u.symbol ≠ "SPY") (ht : t ∈ tickers)
    (hv : visible.contains t.symbol = true)
    (hnone : ∀ p ∈ t.priceHistory,
      ¬ SLe (if decide (tr = TimeRange.sinceMention) then t.mentionDate
             else getStartDate tr tickers now) p.date) :
    (∀ row ∈ chartData tickers benchmark visible tr now,
      jsObjGet row.cells t.symbol = none) ∧
    (performances (chartData tickers benchmark visible tr now) visible).filter
      (fun e => decide (e.symbol = t.symbol)) = [] := by
  have hfind : t.priceHistory.find?
      (fun p => strLe (if decide (tr = TimeRange.sinceMention) then
        t.mentionDate else getStartDate tr tickers now) p.date) = none :=
    List.find?_eq_none.mpr fun p hp => hnone p hp
  have hbget : jsMapGet (buildMaps tickers visible
      (decide (tr = TimeRange.sinceMention))
      (getStartDate tr tickers now)).2 t.symbol = none := by
    rw [buildMaps_snd_get _ _ hnd ht hv, baselineEntryOf_of_none hfind]
    rfl
  have hcells : ∀ row ∈ chartData tickers benchmark visible tr now,
      jsObjGet row.cells t.symbol = none := by
    intro row hrow
    rw [chart_cell_ticker hne hnd hspy ht hv hrow]
    rcases hA : jsMapGet (priceMapOf t) row.date with _ | c <;>
      simp [cellOf_pair, hA, hbget]
  refine ⟨hcells, ?_⟩
  by_cases hlen : (chartData tickers benchmark visible tr now).length < 2
  · unfold performances
    rw [if_pos hlen]
    simp
  · have hnil : chartData tickers benchmark visible tr now ≠ [] := by
      intro h
      rw [h] at hlen
      simp at hlen
    have hcf : jsObjGet ((chartData tickers benchmark visible tr
        now).head?.getD ⟨"", []⟩).cells t.symbol = none :=
      hcells _ (head_getD_mem _ _ hnil)
    have hcl : jsObjGet ((chartData tickers benchmark visible tr
        now).getLast?.getD ⟨"", []⟩).cells t.symbol = none :=
      hcells _ (getLast_getD_mem _ _ hnil)
    have hentry : perfEntryOf
        ((chartData tickers benchmark visible tr now).head?.getD ⟨"", []⟩)
        ((chartData tickers benchmark visible tr now).getLast?.getD ⟨"", []⟩)
        t.symbol = none := by
      unfold perfEntryOf
      rw [hcf, hcl]
    rw [performances_eq _ _ hlen]
    have hperm := (sortPerfs_perm
      ((visible.filterMap (perfEntryOf
        ((chartData tickers benchmark visible tr now).head?.getD ⟨"", []⟩)
        ((chartData tickers benchmark visible tr now).getLast?.getD
          ⟨"", []⟩))) ++
       (perfEntryOf
        ((chartData tickers benchmark visible tr now).head?.getD ⟨"", []⟩)
        ((chartData tickers benchmark visible tr now).getLast?.getD ⟨"", []⟩)
        "SPY").toList)).filter (fun e => decide (e.symbol = t.symbol))
    have hflat : ((visible.filterMap (perfEntryOf
        ((chartData tickers benchmark visible tr now).head?.getD ⟨"", []⟩)
        ((chartData tickers benchmark visible tr now).getLast?.getD
          ⟨"", []⟩))) ++
       (perfEntryOf
        ((chartData tickers benchmark visible tr now).head?.getD ⟨"", []⟩)
        ((chartData tickers benchmark visible tr now).getLast?.getD ⟨"", []⟩)
        "SPY").toList).filter (fun e => decide (e.symbol = t.symbol)) = [] := by
      rw [List.filter_append,
        filter_filterMap_symbol_none (fun sym e h => perfEntryOf_symbol h)
          hentry]
      have hspyf : ((perfEntryOf
          ((chartData tickers benchmark visible tr now).head?.getD ⟨"", []⟩)
          ((chartData tickers benchmark visible tr now).getLast?.getD
            ⟨"", []⟩) "SPY").toList).filter
          (fun e => decide (e.symbol = t.symbol)) = [] := by
        rcases hspyE : perfEntryOf
            ((chartData tickers benchmark visible tr now).head?.getD ⟨"", []⟩)
            ((chartData tickers benchmark visible tr now).getLast?.getD
              ⟨"", []⟩) "SPY" with _ | e
        · rfl
        · have hne' : e.symbol ≠ t.symbol := by
            rw [perfEntryOf_symbol hspyE]
            exact fun hh => hspy t ht hh.symm
          simp [hne']
      rw [hspyf]
      simp
    rw [hflat] at hperm
    exact hperm.eq_nil

/-- Witness for C8 at a concrete input: ticker B has one close, dated before
its own mention date (SinceMention baseline), so every row lacks a B cell
and the summary has no B entry. -/
theorem C8_witness :
    (∀ p ∈ ([⟨"2024-01-05", (50 : ℚ)⟩] : List PricePoint),
      ¬ SLe (if decide (TimeRange.sinceMention = TimeRange.sinceMention) then
        "2024-02-01" else getStartDate TimeRange.sinceMention
          [⟨"A", "2024-01-01", [⟨"2024-01-02", 10⟩, ⟨"2024-01-03", 11⟩]⟩,
           ⟨"B", "2024-02-01", [⟨"2024-01-05", 50⟩]⟩] ⟨2024, 6, 1⟩)
        p.date) ∧
    ((∀ row ∈ chartData
        [⟨"A", "2024-01-01", [⟨"2024-01-02", 10⟩, ⟨"2024-01-03", 11⟩]⟩,
         ⟨"B", "2024-02-01", [⟨"2024-01-05", 50⟩]⟩]
        [] ["A", "B"] TimeRange.sinceMention ⟨2024, 6, 1⟩,
      jsObjGet row.cells "B" = none) ∧
    (performances (chartData
        [⟨"A", "2024-01-01", [⟨"2024-01-02", 10⟩, ⟨"2024-01-03", 11⟩]⟩,
         ⟨"B", "2024-02-01", [⟨"2024-01-05", 50⟩]⟩]
        [] ["A", "B"] TimeRange.sinceMention ⟨2024, 6, 1⟩) ["A", "B"]).filter
      (fun e => decide (e.symbol = "B")) = []) :=
  ⟨by decide,
    C8_absent_entity
      [⟨"A", "2024-01-01", [⟨"2024-01-02", 10⟩, ⟨"2024-01-03", 11⟩]⟩,
       ⟨"B", "2024-02-01", [⟨"2024-01-05", 50⟩]⟩]
      [] ["A", "B"] TimeRange.sinceMention ⟨2024, 6, 1⟩
      ⟨"B", "2024-02-01", [⟨"2024-01-05", 50⟩]⟩ (by decide) (by decide)
      (by decide) (by decide) (by decide) (by decide)⟩

theorem filter_filterMap_symbol_not_mem {g : String → Option PerfEntry}
    (hg : ∀ sym e, g sym = some e → e.symbol = sym) {visible : List String}
    {s : String} (hs : s ∉ visible) :
    (visible.filterMap g).filter (fun e => decide (e.symbol = s)) = [] := by
  refine List.filter_eq_nil_iff.mpr fun e he => ?_
  simp only [decide_eq_true_eq]
  intro hcontra
  rcases List.mem_filterMap.mp he with ⟨sym, hsym, hgs⟩
  rw [hg sym e hgs] at hcontra
  exact hs (hcontra ▸ hsym)

/-- C5 (amended): a series gets a performance entry exactly when the table
has at least two rows and the series has truthy values in the *first and
last row of the table* (`perfEntryOf`), and then its value is last-row value
minus first-row value; with fewer than two rows there is never an entry.
The same rule applies to the benchmark series. -/
theorem C5_perf_entry_rule (cd : List ChartPoint) (visible : List String)
    (hnd : visible.Nodup) (hspyv : "SPY" ∉ visible) (s : String)
    (hs : s ∈ visible) :
    (¬ cd.length < 2 →
      (performances cd visible).filter (fun e => decide (e.symbol = s)) =
        (perfEntryOf (cd.head?.getD ⟨"", []⟩) (cd.getLast?.getD ⟨"", []⟩)
          s).toList) ∧
    (cd.length < 2 →
      (performances cd visible).filter (fun e => decide (e.symbol = s)) =
        []) ∧
    (¬ cd.length < 2 →
      (performances cd visible).filter (fun e => decide (e.symbol = "SPY")) =
        (perfEntryOf (cd.head?.getD ⟨"", []⟩) (cd.getLast?.getD ⟨"", []⟩)
          "SPY").toList) := by
  refine ⟨?_, ?_, ?_⟩
  · intro hlen
    exact performances_filter_eq hlen s hnd hspyv hs
  · intro hlen
    unfold performances
    rw [if_pos hlen]
    simp
  · intro hlen
    rw [performances_eq _ _ hlen]
    have hperm := (sortPerfs_perm
      ((visible.filterMap (perfEntryOf (cd.head?.getD ⟨"", []⟩)
        (cd.getLast?.getD ⟨"", []⟩))) ++
       (perfEntryOf (cd.head?.getD ⟨"", []⟩) (cd.getLast?.getD ⟨"", []⟩)
        "SPY").toList)).filter (fun e => decide (e.symbol = "SPY"))
    have hflat : ((visible.filterMap (perfEntryOf (cd.head?.getD ⟨"", []⟩)
        (cd.getLast?.getD ⟨"", []⟩))) ++
       (perfEntryOf (cd.head?.getD ⟨"", []⟩) (cd.getLast?.getD ⟨"", []⟩)
        "SPY").toList).filter (fun e => decide (e.symbol = "SPY")) =
        (perfEntryOf (cd.head?.getD ⟨"", []⟩) (cd.getLast?.getD ⟨"", []⟩)
          "SPY").toList := by
      rw [List.filter_append,
        filter_filterMap_symbol_not_mem (fun sym e h => perfEntryOf_symbol h)
          hspyv]
      have hkeep : ((perfEntryOf (cd.head?.getD ⟨"", []⟩)
          (cd.getLast?.getD ⟨"", []⟩) "SPY").toList).filter
          (fun e => decide (e.symbol = "SPY")) =
          (perfEntryOf (cd.head?.getD ⟨"", []⟩) (cd.getLast?.getD ⟨"", []⟩)
            "SPY").toList := by
        rcases hE : perfEntryOf (cd.head?.getD ⟨"", []⟩)
            (cd.getLast?.getD ⟨"", []⟩) "SPY" with _ | e
        · rfl
        · simp [perfEntryOf_symbol hE]
      rw [hkeep]
      simp
    rw [hflat] at hperm
    rcases hE : perfEntryOf (cd.head?.getD ⟨"", []⟩)
        (cd.getLast?.getD ⟨"", []⟩) "SPY" with _ | e
    · rw [hE] at hperm
      simpa using hperm.eq_nil
    · rw [hE] at hperm
      simpa using List.perm_singleton.mp (by simpa using hperm)

/-- Witness for C5 (amended) at a concrete input: a two-row table where A is
valued in both rows. -/
theorem C5_witness :
    (¬ (chartData [⟨"A", "2024-01-01",
        [⟨"2024-01-02", 100⟩, ⟨"2024-01-03", 110⟩]⟩] [] ["A"]
        TimeRange.all ⟨2024, 6, 1⟩).length < 2) ∧
    (performances (chartData [⟨"A", "2024-01-01",
        [⟨"2024-01-02", 100⟩, ⟨"2024-01-03", 110⟩]⟩] [] ["A"]
        TimeRange.all ⟨2024, 6, 1⟩) ["A"]).filter
      (fun e => decide (e.symbol = "A")) =
      (perfEntryOf ((chartData [⟨"A", "2024-01-01",
          [⟨"2024-01-02", 100⟩, ⟨"2024-01-03", 110⟩]⟩] [] ["A"]
          TimeRange.all ⟨2024, 6, 1⟩).head?.getD ⟨"", []⟩)
        ((chartData [⟨"A", "2024-01-01",
          [⟨"2024-01-02", 100⟩, ⟨"2024-01-03", 110⟩]⟩] [] ["A"]
          TimeRange.all ⟨2024, 6, 1⟩).getLast?.getD ⟨"", []⟩)
        "A").toList := by
  have hlen : ¬ (chartData [⟨"A", "2024-01-01",
      [⟨"2024-01-02", 100⟩, ⟨"2024-01-03", 110⟩]⟩] [] ["A"]
      TimeRange.all ⟨2024, 6, 1⟩).length < 2 := by
    norm_num +decide [chartData, getStartDate, mentionMinStep, sortedDatesOf,
      allDatesOf, tickerDatesOf, sortDates, insertDate, List.dedup, buildMaps,
      buildMapsStep, buildRow, baselineOf, priceMapOf, jsMapOfList, jsMapSet,
      jsMapGet, jsObjGet, benchmarkBaselineOf, strLe, strLt, lexLe, round2,
      round_eq]
  exact ⟨hlen,
    (C5_perf_entry_rule (chartData [⟨"A", "2024-01-01",
        [⟨"2024-01-02", 100⟩, ⟨"2024-01-03", 110⟩]⟩] [] ["A"]
        TimeRange.all ⟨2024, 6, 1⟩) ["A"] (by decide) (by decide) "A"
      (by decide)).1 hlen⟩

/-- Counterexample for C5 as stated: ticker A has two valued rows (the
second and third), but because the benchmark contributes an earlier first
row in which A is absent, A gets no performance entry at all. -/
theorem C5_counterexample :
    ((chartData [⟨"A", "2024-01-01",
        [⟨"2024-01-02", 100⟩, ⟨"2024-01-03", 110⟩]⟩]
        [⟨"2024-01-01", 500⟩, ⟨"2024-01-02", 500⟩, ⟨"2024-01-03", 505⟩]
        ["A"] TimeRange.all ⟨2024, 6, 1⟩).filter
      (fun row => (jsObjGet row.cells "A").isSome)).length = 2 ∧
    (performances (chartData [⟨"A", "2024-01-01",
        [⟨"2024-01-02", 100⟩, ⟨"2024-01-03", 110⟩]⟩]
        [⟨"2024-01-01", 500⟩, ⟨"2024-01-02", 500⟩, ⟨"2024-01-03", 505⟩]
        ["A"] TimeRange.all ⟨2024, 6, 1⟩) ["A"]).filter
      (fun e => decide (e.symbol = "A")) = [] := by
  constructor
  · norm_num +decide [chartData, getStartDate, mentionMinStep, sortedDatesOf,
      allDatesOf, tickerDatesOf, sortDates, insertDate, List.dedup, buildMaps,
      buildMapsStep, buildRow, baselineOf, priceMapOf, jsMapOfList, jsMapSet,
      jsMapGet, jsObjGet, benchmarkBaselineOf, strLe, strLt, lexLe, round2,
      round_eq]
  · norm_num +decide [chartData, getStartDate, mentionMinStep, sortedDatesOf,
      allDatesOf, tickerDatesOf, sortDates, insertDate, List.dedup, buildMaps,
      buildMapsStep, buildRow, baselineOf, priceMapOf, jsMapOfList, jsMapSet,
      jsMapGet, jsObjGet, benchmarkBaselineOf, strLe, strLt, lexLe, round2,
      round_eq, performances, sortPerfs, insertPerf]

/-- C1: for a visible entity with resolved (truthy) baseline `b` and any
output row: when a raw close exists for (symbol, row date) the cell is
exactly `round2(close / b * 100)`, otherwise the cell is absent; the
benchmark column gets the identical transform with the benchmark baseline.
(Positive closes are the data-model invariant; a zero close would be dropped
by JavaScript truthiness.) -/
theorem C1_cell_is_round2_rebase (tickers : List TickerData)
    (benchmark : List PricePoint) (visible : List String) (tr : TimeRange)
    (now : JDate) (t : TickerData) (row : ChartPoint) (b bb : ℚ)
    (hne : tickers ≠ [])
    (hnd : (tickers.map TickerData.symbol).Nodup)
    (hspy : ∀ u ∈ tickers, u.symbol ≠ "SPY")
    (ht : t ∈ tickers) (hv : visible.contains t.symbol = true)
    (hdt : (t.priceHistory.map PricePoint.date).Nodup)
    (hpt : ∀ p ∈ t.priceHistory, 0 < p.close)
    (hdb : (benchmark.map PricePoint.date).Nodup)
    (hpb : ∀ p ∈ benchmark, 0 < p.close)
    (hb : baselineOf (decide (tr = TimeRange.sinceMention))
      (getStartDate tr tickers now) t = some b)
    (hbb : benchmarkBaselineOf benchmark (getStartDate tr tickers now) =
      some bb)
    (hrow : row ∈ chartData tickers benchmark visible tr now) :
    jsObjGet row.cells t.symbol =
      (t.priceHistory.find? fun p => decide (p.date = row.date)).map
        (fun p => round2 (p.close / b * 100)) ∧
    jsObjGet row.cells "SPY" =
      (benchmark.find? fun p => decide (p.date = row.date)).map
        (fun p => round2 (p.close / bb * 100)) := by
  rw [baselineOf_def] at hb
  have hbex : ∃ p0, t.priceHistory.find?
      (fun p => strLe (if decide (tr = TimeRange.sinceMention) then
        t.mentionDate else getStartDate tr tickers now) p.date) = some p0 ∧
      p0.close = b := by
    rcases h : t.priceHistory.find?
        (fun p => strLe (if decide (tr = TimeRange.sinceMention) then
          t.mentionDate else getStartDate tr tickers now) p.date)
        with _ | p0 <;> rw [h] at hb
    · cases hb
    · exact ⟨p0, h, by simpa using hb⟩
  obtain ⟨p0, hp0find, hp0close⟩ := hbex
  have hbpos : 0 < b :=
    hp0close ▸ hpt p0 (List.mem_of_find?_eq_some hp0find)
  have hbbex : ∃ q0, benchmark.find?
      (fun p => strLe (getStartDate tr tickers now) p.date) = some q0 ∧
      q0.close = bb := by
    unfold benchmarkBaselineOf at hbb
    rcases h : benchmark.find?
        (fun p => strLe (getStartDate tr tickers now) p.date)
        with _ | q0 <;> rw [h] at hbb
    · cases hbb
    · exact ⟨q0, h, by simpa using hbb⟩
  obtain ⟨q0, hq0find, hq0close⟩ := hbbex
  have hbbpos : 0 < bb :=
    hq0close ▸ hpb q0 (List.mem_of_find?_eq_some hq0find)
  have hbget : jsMapGet (buildMaps tickers visible
      (decide (tr = TimeRange.sinceMention))
      (getStartDate tr tickers now)).2 t.symbol = some b := by
    rw [buildMaps_snd_get _ _ hnd ht hv]
    have hent := baselineEntryOf_of_find hp0find
      (by rw [hp0close]; exact ne_of_gt hbpos)
    rw [hp0close] at hent
    rw [hent]
    rfl
  constructor
  · rw [chart_cell_ticker hne hnd hspy ht hv hrow]
    rcases hfp : t.priceHistory.find? (fun p => decide (p.date = row.date))
        with _ | p
    · have hA : jsMapGet (priceMapOf t) row.date = none := by
        rw [jsMapGet_priceMapOf hdt, hfp]
        rfl
      simp [cellOf_pair, hA, hfp]
    · have hA : jsMapGet (priceMapOf t) row.date = some p.close := by
        rw [jsMapGet_priceMapOf hdt, hfp]
        rfl
      have hpc : p.close ≠ 0 :=
        ne_of_gt (hpt p (List.mem_of_find?_eq_some hfp))
      simp [cellOf_pair, hA, hfp, hbget, hpc, ne_of_gt hbpos]
  · rw [chart_cell_spy hne hnd hspy hrow]
    rcases hfb : benchmark.find? (fun p => decide (p.date = row.date))
        with _ | p
    · have hB : jsMapGet (jsMapOfList (benchmark.map fun p =>
          (p.date, p.close))) row.date = none := by
        rw [jsMapGet_pricePairs hdb, hfb]
        rfl
      simp [spyCellOf, hB, hfb, hbb]
    · have hB : jsMapGet (jsMapOfList (benchmark.map fun p =>
          (p.date, p.close))) row.date = some p.close := by
        rw [jsMapGet_pricePairs hdb, hfb]
        rfl
      have hpc : p.close ≠ 0 :=
        ne_of_gt (hpb p (List.mem_of_find?_eq_some hfb))
      simp [spyCellOf, hB, hfb, hbb, hpc, ne_of_gt hbbpos]

/-- Witness for C1 at a concrete input: in the second row the ticker shows
`round2(105/100*100) = 105` and the benchmark `round2(505/500*100) = 101`. -/
theorem C1_witness :
    baselineOf (decide (TimeRange.sinceMention = TimeRange.sinceMention))
      (getStartDate TimeRange.sinceMention
        [⟨"A", "2024-01-10", [⟨"2024-01-10", 100⟩, ⟨"2024-01-11", 105⟩]⟩]
        ⟨2024, 6, 1⟩)
      ⟨"A", "2024-01-10", [⟨"2024-01-10", 100⟩, ⟨"2024-01-11", 105⟩]⟩ =
      some 100 ∧
    (⟨"2024-01-11", [("A", 105), ("SPY", 101)]⟩ : ChartPoint) ∈
      chartData
        [⟨"A", "2024-01-10", [⟨"2024-01-10", 100⟩, ⟨"2024-01-11", 105⟩]⟩]
        [⟨"2024-01-10", 500⟩, ⟨"2024-01-11", 505⟩] ["A"]
        TimeRange.sinceMention ⟨2024, 6, 1⟩ ∧
    jsObjGet ([("A", 105), ("SPY", 101)] : List (String × ℚ)) "A" =
      (([⟨"2024-01-10", 100⟩, ⟨"2024-01-11", 105⟩] :
          List PricePoint).find? fun p => decide (p.date = "2024-01-11")).map
        (fun p => round2 (p.close / 100 * 100)) := by
  have hrow : (⟨"2024-01-11", [("A", 105), ("SPY", 101)]⟩ : ChartPoint) ∈
      chartData
        [⟨"A", "2024-01-10", [⟨"2024-01-10", 100⟩, ⟨"2024-01-11", 105⟩]⟩]
        [⟨"2024-01-10", 500⟩, ⟨"2024-01-11", 505⟩] ["A"]
        TimeRange.sinceMention ⟨2024, 6, 1⟩ := by
    norm_num +decide [chartData, getStartDate, mentionMinStep, sortedDatesOf,
      allDatesOf, tickerDatesOf, sortDates, insertDate, List.dedup, buildMaps,
      buildMapsStep, buildRow, baselineOf, priceMapOf, jsMapOfList, jsMapSet,
      jsMapGet, jsObjGet, benchmarkBaselineOf, strLe, strLt, lexLe, round2,
      round_eq]
  refine ⟨by decide, hrow, ?_⟩
  exact (C1_cell_is_round2_rebase
    [⟨"A", "2024-01-10", [⟨"2024-01-10", 100⟩, ⟨"2024-01-11", 105⟩]⟩]
    [⟨"2024-01-10", 500⟩, ⟨"2024-01-11", 505⟩] ["A"]
    TimeRange.sinceMention ⟨2024, 6, 1⟩
    ⟨"A", "2024-01-10", [⟨"2024-01-10", 100⟩, ⟨"2024-01-11", 105⟩]⟩
    ⟨"2024-01-11", [("A", 105), ("SPY", 101)]⟩ 100 500 (by decide)
    (by decide) (by decide) (by decide) (by decide) (by decide) (by decide)
    (by decide) (by decide) (by decide) (by decide) hrow).1

/-! ## First valued row (for the SinceMention baseline property) -/

theorem DatesAsc.toSorted {l : List PricePoint} (h : DatesAsc l) :
    DatesSorted l :=
  h.imp fun h' => SLe_of_SLt h'

theorem DatesAsc.dates_nodup {l : List PricePoint} (h : DatesAsc l) :
    (l.map PricePoint.date).Nodup := by
  refine List.Pairwise.map PricePoint.date ?_ h
  intro a b hab heq
  rw [heq] at hab
  exact SLt_irrefl b.date hab

theorem round2_100 : round2 (100 : ℚ) = 100 := by
  norm_num [round2, round_eq]

/-- If the baseline point `p0` of a visible ticker is dated first among the
ticker's in-table closes, the first valued cell of the ticker's column is
its re-based baseline value. -/
theorem chart_first_valued (tickers : List TickerData)
    (benchmark : List PricePoint) (visible : List String) (tr : TimeRange)
    (now : JDate) (t : TickerData) (p0 : PricePoint) (hne : tickers ≠ [])
    (hnd : (tickers.map TickerData.symbol).Nodup)
    (hspy : ∀ u ∈ tickers, u.symbol ≠ "SPY") (ht : t ∈ tickers)
    (hv : visible.contains t.symbol = true)
    (hdt : (t.priceHistory.map PricePoint.date).Nodup)
    (hpos : ∀ p ∈ t.priceHistory, 0 < p.close)
    (hbase : t.priceHistory.find?
      (fun p => strLe (if decide (tr = TimeRange.sinceMention) then
        t.mentionDate else getStartDate tr tickers now) p.date) = some p0)
    (hp0in : p0.date ∈ sortedDatesOf tickers benchmark visible
      (getStartDate tr tickers now))
    (hmin : ∀ d ∈ sortedDatesOf tickers benchmark visible
        (getStartDate tr tickers now),
      (t.priceHistory.find? (fun p => decide (p.date = d))).isSome = true →
        SLe p0.date d) :
    firstValuedCell (chartData tickers benchmark visible tr now) t.symbol =
      some (round2 (p0.close / p0.close * 100)) := by
  have hp0mem : p0 ∈ t.priceHistory := List.mem_of_find?_eq_some hbase
  have hp0pos : 0 < p0.close := hpos p0 hp0mem
  have hbget : jsMapGet (buildMaps tickers visible
      (decide (tr = TimeRange.sinceMention))
      (getStartDate tr tickers now)).2 t.symbol = some p0.close := by
    rw [buildMaps_snd_get _ _ hnd ht hv,
      baselineEntryOf_of_find hbase (ne_of_gt hp0pos)]
    rfl
  have hcellAt : ∀ d ∈ sortedDatesOf tickers benchmark visible
      (getStartDate tr tickers now),
      jsObjGet (buildRow
        (buildMaps tickers visible (decide (tr = TimeRange.sinceMention))
          (getStartDate tr tickers now)).1
        (buildMaps tickers visible (decide (tr = TimeRange.sinceMention))
          (getStartDate tr tickers now)).2
        (jsMapOfList (benchmark.map fun p => (p.date, p.close)))
        (benchmarkBaselineOf benchmark (getStartDate tr tickers now))
        d).cells t.symbol =
      (cellOf (buildMaps tickers visible
        (decide (tr = TimeRange.sinceMention))
        (getStartDate tr tickers now)).2 d
        (t.symbol, priceMapOf t)).map (fun p => p.2) := by
    intro d hd
    have hrow : buildRow
        (buildMaps tickers visible (decide (tr = TimeRange.sinceMention))
          (getStartDate tr tickers now)).1
        (buildMaps tickers visible (decide (tr = TimeRange.sinceMention))
          (getStartDate tr tickers now)).2
        (jsMapOfList (benchmark.map fun p => (p.date, p.close)))
        (benchmarkBaselineOf benchmark (getStartDate tr tickers now)) d ∈
        chartData tickers benchmark visible tr now := by
      rw [chartData_eq_of_ne_nil hne]
      exact List.mem_map_of_mem _ hd
    exact chart_cell_ticker hne hnd hspy ht hv hrow
  have hfp0 : t.priceHistory.find? (fun p => decide (p.date = p0.date)) =
      some p0 :=
    find?_key_eq t.priceHistory (fun p => p.date) hdt p0 hp0mem
  have hcell_p0 : (cellOf (buildMaps tickers visible
      (decide (tr = TimeRange.sinceMention))
      (getStartDate tr tickers now)).2 p0.date
      (t.symbol, priceMapOf t)) =
      some (t.symbol, round2 (p0.close / p0.close * 100)) := by
    have hA : jsMapGet (priceMapOf t) p0.date = some p0.close := by
      rw [jsMapGet_priceMapOf hdt, hfp0]
      rfl
    simp [cellOf_pair, hA, hbget, ne_of_gt hp0pos]
  have hfound : (sortedDatesOf tickers benchmark visible
      (getStartDate tr tickers now)).find?
      ((fun row => (jsObjGet row.cells t.symbol).isSome) ∘
        buildRow
          (buildMaps tickers visible (decide (tr = TimeRange.sinceMention))
            (getStartDate tr tickers now)).1
          (buildMaps tickers visible (decide (tr = TimeRange.sinceMention))
            (getStartDate tr tickers now)).2
          (jsMapOfList (benchmark.map fun p => (p.date, p.close)))
          (benchmarkBaselineOf benchmark (getStartDate tr tickers now))) =
      some p0.date := by
    refine find?_min_first
      ((sortedDatesOf_sorted _ _ _ _).imp fun h => SLe_of_SLt h)
      hp0in ?_ ?_
    · show (jsObjGet (buildRow _ _ _ _ p0.date).cells t.symbol).isSome = true
      rw [hcellAt p0.date hp0in, hcell_p0]
      rfl
    · intro d hd hq
      refine hmin d hd ?_
      have hq' := hq
      show (t.priceHistory.find? (fun p => decide (p.date = d))).isSome = true
      rcases hfp : t.priceHistory.find? (fun p => decide (p.date = d))
          with _ | p
      · exfalso
        have hA : jsMapGet (priceMapOf t) d = none := by
          rw [jsMapGet_priceMapOf hdt, hfp]
          rfl
        have : (jsObjGet (buildRow _ _ _ _ d).cells t.symbol).isSome =
            true := hq'
        rw [hcellAt d hd] at this
        simp [cellOf_pair, hA] at this
      · rw [hfp]
        rfl
  unfold firstValuedCell
  rw [chartData_eq_of_ne_nil hne, List.find?_map, hfound]
  simp only [Option.map_some', Option.some_bind]
  rw [hcellAt p0.date hp0in, hcell_p0]
  rfl

/-- C4 (amended): under SinceMention, if a visible entity has no close
strictly between the global cutoff and its own mention date (equivalently:
every in-window close is on or after the mention date), then the first row
in which the entity has a value shows exactly 100.00.  Without that proviso
the property fails — see the counterexample. -/
theorem C4_sinceMention_first_value (tickers : List TickerData)
    (benchmark : List PricePoint) (visible : List String) (now : JDate)
    (t : TickerData) (hne : tickers ≠ [])
    (hnd : (tickers.map TickerData.symbol).Nodup)
    (hspy : ∀ u ∈ tickers, u.symbol ≠ "SPY") (ht : t ∈ tickers)
    (hv : visible.contains t.symbol = true) (hasc : DatesAsc t.priceHistory)
    (hpos : ∀ p ∈ t.priceHistory, 0 < p.close)
    (hgap : ∀ p ∈ t.priceHistory,
      strLe (getStartDate TimeRange.sinceMention tickers now) p.date = true →
        SLe t.mentionDate p.date) :
    ∀ v, firstValuedCell
        (chartData tickers benchmark visible TimeRange.sinceMention now)
        t.symbol = some v → v = 100 := by
  intro v hval
  have hdt := hasc.dates_nodup
  rcases hbase : t.priceHistory.find?
      (fun p => strLe
        (if decide (TimeRange.sinceMention = TimeRange.sinceMention) then
          t.mentionDate
         else getStartDate TimeRange.sinceMention tickers now) p.date)
      with _ | p0
  · have hbget : jsMapGet (buildMaps tickers visible true
        (getStartDate TimeRange.sinceMention tickers now)).2 t.symbol =
        none := by
      rw [buildMaps_snd_get _ _ hnd ht hv,
        (baselineEntryOf_of_none hbase : baselineEntryOf true
          (getStartDate TimeRange.sinceMention tickers now) t = none)]
      rfl
    have hcells : ∀ row ∈ chartData tickers benchmark visible
        TimeRange.sinceMention now, jsObjGet row.cells t.symbol = none := by
      intro row hrow
      rw [chart_cell_ticker hne hnd hspy ht hv hrow]
      rcases hA : jsMapGet (priceMapOf t) row.date with _ | c <;>
        simp [cellOf_pair, hA, hbget]
    unfold firstValuedCell at hval
    rw [List.find?_eq_none.mpr
      (fun row hrow => by simp [hcells row hrow])] at hval
    cases hval
  · have hsd_le_mention : ∀ u ∈ tickers,
        SLe (getStartDate TimeRange.sinceMention tickers now)
          u.mentionDate := by
      rcases tickers with _ | ⟨t0, ts⟩
      · exact absurd rfl hne
      · exact (minFold_spec t0 ts).2
    have hp0le' := List.find?_some hbase
    have hp0le : SLe t.mentionDate p0.date := hp0le'
    have hp0mem := List.mem_of_find?_eq_some hbase
    have hp0in : p0.date ∈ sortedDatesOf tickers benchmark visible
        (getStartDate TimeRange.sinceMention tickers now) :=
      mem_sortedDatesOf.mpr (Or.inl ⟨t, ht, hv, p0, hp0mem, rfl,
        SLe_trans (hsd_le_mention t ht) hp0le⟩)
    have hmin : ∀ d ∈ sortedDatesOf tickers benchmark visible
        (getStartDate TimeRange.sinceMention tickers now),
        (t.priceHistory.find? (fun p => decide (p.date = d))).isSome = true →
          SLe p0.date d := by
      intro d hd hsome
      rcases Option.isSome_iff_exists.mp hsome with ⟨p, hp⟩
      have hpmem := List.mem_of_find?_eq_some hp
      have hpd : p.date = d := by simpa using List.find?_some hp
      have hsdd : SLe (getStartDate TimeRange.sinceMention tickers now) d :=
        sortedDatesOf_ge hd
      have hmd : SLe t.mentionDate p.date :=
        hgap p hpmem (by rw [hpd]; exact hsdd)
      have hrel := find?_ge_min (hasc.toSorted) hbase p hpmem hmd
      rw [hpd] at hrel
      exact hrel
    have heq := chart_first_valued tickers benchmark visible
      TimeRange.sinceMention now t p0 hne hnd hspy ht hv hdt hpos hbase
      hp0in hmin
    rw [heq] at hval
    have h100 : p0.close / p0.close * 100 = (100 : ℚ) := by
      rw [div_self (ne_of_gt (hpos p0 hp0mem)), one_mul]
    rw [h100, round2_100] at hval
    exact (Option.some.inj hval).symm

/-- Witness for C4 (amended) at a concrete input: a single ticker, first
close on the mention date; its first valued row shows exactly 100. -/
theorem C4_witness :
    firstValuedCell (chartData
        [⟨"A", "2024-01-10", [⟨"2024-01-10", 100⟩, ⟨"2024-01-11", 105⟩]⟩]
        [] ["A"] TimeRange.sinceMention ⟨2024, 6, 1⟩) "A" = some 100 ∧
    (∀ v, firstValuedCell (chartData
        [⟨"A", "2024-01-10", [⟨"2024-01-10", 100⟩, ⟨"2024-01-11", 105⟩]⟩]
        [] ["A"] TimeRange.sinceMention ⟨2024, 6, 1⟩) "A" = some v →
      v = 100) := by
  constructor
  · norm_num +decide [firstValuedCell, chartData, getStartDate,
      mentionMinStep, sortedDatesOf, allDatesOf, tickerDatesOf, sortDates,
      insertDate, List.dedup, buildMaps, buildMapsStep, buildRow, baselineOf,
      priceMapOf, jsMapOfList, jsMapSet, jsMapGet, jsObjGet,
      benchmarkBaselineOf, strLe, strLt, lexLe, round2, round_eq]
  · exact C4_sinceMention_first_value
      [⟨"A", "2024-01-10", [⟨"2024-01-10", 100⟩, ⟨"2024-01-11", 105⟩]⟩]
      [] ["A"] ⟨2024, 6, 1⟩
      ⟨"A", "2024-01-10", [⟨"2024-01-10", 100⟩, ⟨"2024-01-11", 105⟩]⟩
      (by decide) (by decide) (by decide) (by decide) (by decide)
      (by decide) (by decide) (by decide)

/-- Counterexample for C4 as stated: B is mentioned on 2024-01-10 but has a
close on 2024-01-05, inside the window opened by A's earlier mention; B's
first valued row shows 50, not 100. -/
theorem C4_counterexample :
    firstValuedCell (chartData
        [⟨"A", "2024-01-01", [⟨"2024-01-02", 10⟩]⟩,
         ⟨"B", "2024-01-10", [⟨"2024-01-05", 50⟩, ⟨"2024-01-10", 100⟩]⟩]
        [] ["A", "B"] TimeRange.sinceMention ⟨2024, 6, 1⟩) "B" = some 50 ∧
    (50 : ℚ) ≠ 100 := by
  constructor
  · norm_num +decide [firstValuedCell, chartData, getStartDate,
      mentionMinStep, sortedDatesOf, allDatesOf, tickerDatesOf, sortDates,
      insertDate, List.dedup, buildMaps, buildMapsStep, buildRow, baselineOf,
      priceMapOf, jsMapOfList, jsMapSet, jsMapGet, jsObjGet,
      benchmarkBaselineOf, strLe, strLt, lexLe, round2, round_eq]
  · norm_num

end Icarus
